import Mathlib

/-!
Verification development for the SCD Type-1 reconciliation routines
(`scd_type1_full_replace`, `scd_type1_column_level` in `test.py`) and the
audit-column utilities (`add_audit_columns` in `scripts/utils.py`,
`record_hash` in `scripts/ingest.py`).

Relations (Spark DataFrames) are modelled as a column-name list together
with a list of rows; each row is a list of nullable cells positionally
aligned with the column list.  Join and anti-join comparisons follow SQL
equality, under which a null never compares equal to anything (including
another null); `DISTINCT`-style deduplication, in contrast, treats nulls
as equal, as Spark does.
-/

/-- A (nullable) schemaless scalar value, as carried by a DataFrame cell. -/
inductive Val where
  | intV (i : Int)
  | strV (s : String)
deriving DecidableEq, Repr

/-- A cell of a row: `none` is SQL null. -/
abbrev Cell := Option Val

/-- A relation: a schema (list of column names) plus rows positionally
aligned with the schema. -/
structure Relation where
  cols : List String
  rows : List (List Cell)
deriving DecidableEq, Repr

/-- Errors raised eagerly by Spark's analyzer when a referenced column does
not resolve (the spec's `SchemaError`), or when `key_cols[0]` is taken from
an empty key list. -/
inductive SchemaError where
  | missingColumn (c : String)
  | emptyKey
deriving DecidableEq, Repr

/-- Value of column `c` in row `r` laid out along `cols`; null when the
column is absent (used only after schema checks ensure presence). -/
def getCell : List String → List Cell → String → Cell
  | [], _, _ => none
  | _ :: _, [], _ => none
  | c :: cs, v :: vs, c' => if c = c' then v else getCell cs vs c'

/-- The tuple of key-column values of a row. -/
def keyTuple (cols keys : List String) (r : List Cell) : List Cell :=
  keys.map (fun k => getCell cols r k)

/-- SQL equality of two key tuples: pointwise equal and non-null.  A null
key component never matches, mirroring `t.k = s.k` in a Spark join. -/
def tupleMatch : List Cell → List Cell → Bool
  | [], [] => true
  | some a :: xs, some b :: ys => decide (a = b) && tupleMatch xs ys
  | _, _ => false

/-- All components of a tuple are non-null. -/
def allSome : List Cell → Bool
  | [] => true
  | some _ :: xs => allSome xs
  | none :: _ => false

/-- First key of `need` that does not resolve against schema `cols`
(Spark's analyzer check). -/
def firstMissing (cols need : List String) : Option String :=
  need.find? (fun c => decide (c ∉ cols))

/-- Re-lay a row out along a new column list, null-filling columns the old
schema lacks (the row shape produced by `unionByName` with
`allowMissingColumns=True`). -/
def reshapeRow (cols : List String) (r : List Cell) (newCols : List String) : List Cell :=
  newCols.map (fun c => getCell cols r c)

/-- Column list of `unionByName`: the first frame's columns followed by the
second frame's columns not already present. -/
def unionByNameCols (c1 c2 : List String) : List String :=
  c1 ++ c2.filter (fun c => decide (c ∉ c1))

/-- `src_keys = source.select(*key_cols).distinct()`: the distinct source
key tuples (`DISTINCT` treats nulls as equal, so plain deduplication). -/
def frSrcKeys (source : Relation) (key_cols : List String) : List (List Cell) :=
  (source.rows.map (fun r => keyTuple source.cols key_cols r)).dedup

/-- The `left_anti` join of the full-replace merge: target rows whose key
tuple matches (SQL equality) no distinct source key. -/
def frUnchanged (source target : Relation) (key_cols : List String) : List (List Cell) :=
  target.rows.filter
    (fun r => !(frSrcKeys source key_cols).any
      (fun kt => tupleMatch (keyTuple target.cols key_cols r) kt))

/-- The relation produced by `scd_type1_full_replace` once the schema
checks have passed. -/
def fullReplaceCore (source target : Relation) (key_cols : List String) : Relation :=
  { cols := unionByNameCols source.cols target.cols
    rows := source.rows.map
              (fun r => reshapeRow source.cols r (unionByNameCols source.cols target.cols))
            ++ (frUnchanged source target key_cols).map
              (fun r => reshapeRow target.cols r (unionByNameCols source.cols target.cols)) }

/-- `scd_type1_full_replace` from `test.py`:
`src_keys = source.select(*key_cols).distinct()`;
`unchanged_target = target.join(src_keys, on=key_cols, how="left_anti")`;
`result = source.unionByName(unchanged_target, allowMissingColumns=True)`.
Key columns missing from a side make the corresponding Spark operation fail
at analysis time, modelled as an `Except.error`. -/
def scd_type1_full_replace (source target : Relation) (key_cols : List String) :
    Except SchemaError Relation :=
  match firstMissing source.cols key_cols with
  | some c => .error (.missingColumn c)
  | none =>
    match firstMissing target.cols key_cols with
    | some c => .error (.missingColumn c)
    | none => .ok (fullReplaceCore source target key_cols)

/-- Code-point lexicographic comparison of character lists, the order
Python's `sorted` uses on strings. -/
def charsLe : List Char → List Char → Bool
  | [], _ => true
  | _ :: _, [] => false
  | a :: as, b :: bs =>
    if a.toNat = b.toNat then charsLe as bs else decide (a.toNat < b.toNat)

def strLeB (a b : String) : Bool := charsLe a.toList b.toList

/-- Insert a string into a (sorted) list, keeping `strLeB` order. -/
def insSorted (a : String) : List String → List String
  | [] => [a]
  | b :: bs => if strLeB a b then a :: b :: bs else b :: insSorted a bs

/-- Insertion sort on strings, modelling Python's `sorted` (on the
duplicate-free lists it is applied to, any `≤`-sort yields the same list). -/
def sortStrings (l : List String) : List String :=
  l.foldr insSorted []

/-- `data_cols` as computed by `scd_type1_column_level`: the sorted non-key
columns of the union of both schemas, restricted to `update_cols` when that
argument is given and non-empty (Python's `if update_cols:` treats an empty
list like `None`). -/
def clBaseCols (source target : Relation) (key_cols : List String) : List String :=
  sortStrings (((target.cols ++ source.cols).dedup).filter (fun c => decide (c ∉ key_cols)))

def clDataCols (source target : Relation) (key_cols : List String)
    (update_cols : Option (List String)) : List String :=
  match update_cols with
  | none => clBaseCols source target key_cols
  | some uc =>
    if uc.isEmpty then clBaseCols source target key_cols
    else (clBaseCols source target key_cols).filter (fun c => uc.contains c)

/-- Value of column `c` on one side of a joined row: null when that side of
the outer join is absent (`F.col("s.c")` / `F.col("t.c")`). -/
def sideCell (cols : List String) (side : Option (List Cell)) (c : String) : Cell :=
  match side with
  | some r => getCell cols r c
  | none => none

/-- Left part of the full outer join: each target row paired with its
matching source rows, or with an absent right side when none match.
Matching is SQL equality (nulls never match). -/
def fojPart1 (tcols : List String) (trows : List (List Cell)) (scols : List String)
    (srows : List (List Cell)) (keys : List String) :
    List (Option (List Cell) × Option (List Cell)) :=
  trows.flatMap (fun tr =>
    let ms := srows.filter (fun sr =>
      tupleMatch (keyTuple tcols keys tr) (keyTuple scols keys sr))
    match ms with
    | [] => [(some tr, none)]
    | _ :: _ => ms.map (fun sr => (some tr, some sr)))

/-- Right part of the full outer join: source rows matching no target row,
with an absent left side. -/
def fojPart2 (tcols : List String) (trows : List (List Cell)) (scols : List String)
    (srows : List (List Cell)) (keys : List String) :
    List (Option (List Cell) × Option (List Cell)) :=
  (srows.filter (fun sr =>
    !trows.any (fun tr =>
      tupleMatch (keyTuple tcols keys tr) (keyTuple scols keys sr)))).map
   (fun sr => (none, some sr))

/-- The full outer join of `target` (left) and `source` (right) on the key
columns. -/
def fullOuterJoin (target source : Relation) (keys : List String) :
    List (Option (List Cell) × Option (List Cell)) :=
  fojPart1 target.cols target.rows source.cols source.rows keys
  ++ fojPart2 target.cols target.rows source.cols source.rows keys

/-- Output value of key column `k` on a joined row:
`F.coalesce(F.col("s.k"), F.col("t.k"))`. -/
def clKeyCell (scols tcols : List String)
    (p : Option (List Cell) × Option (List Cell)) (k : String) : Cell :=
  match sideCell scols p.2 k with
  | some v => some v
  | none => sideCell tcols p.1 k

/-- Output value of data column `c` on a joined row: either the
`prefer_source_when_null` rule — source row presence detected via
`s.{key_cols[0]}` being non-null — or the default
`F.when(s.c.isNotNull(), s.c).otherwise(t.c)`. -/
def clDataCell (scols tcols : List String) (k0 : String) (prefer : Bool)
    (p : Option (List Cell) × Option (List Cell)) (c : String) : Cell :=
  let sc := sideCell scols p.2 c
  let tc := sideCell tcols p.1 c
  if prefer then
    if (sideCell scols p.2 k0).isSome then sc else tc
  else
    if sc.isSome then sc else tc

/-- One output row of `scd_type1_column_level`'s final `select`: the key
columns, then the data columns. -/
def clOutRow (scols tcols keys dcols : List String) (k0 : String)
    (prefer : Bool) (p : Option (List Cell) × Option (List Cell)) : List Cell :=
  keys.map (clKeyCell scols tcols p) ++ dcols.map (clDataCell scols tcols k0 prefer p)

/-- The key tuple a joined row will carry in the output. -/
def outKeyTuple (scols tcols keys : List String)
    (p : Option (List Cell) × Option (List Cell)) : List Cell :=
  keys.map (clKeyCell scols tcols p)

/-- The relation produced by `scd_type1_column_level` once the schema
checks have passed. -/
def columnLevelCore (source target : Relation) (key_cols data_cols : List String)
    (k0 : String) (prefer : Bool) : Relation :=
  { cols := key_cols ++ data_cols
    rows := (fullOuterJoin target source key_cols).map
      (clOutRow source.cols target.cols key_cols data_cols k0 prefer) }

/-- `scd_type1_column_level` from `test.py`.  The Spark analyzer resolves
the key columns for the join and every `s.{c}` / `t.{c}` reference of the
final select eagerly; an unresolvable column is a `SchemaError`.  When
`prefer_source_when_null` is set, `key_cols[0]` is read, which raises on an
empty key list. -/
def scd_type1_column_level (source target : Relation) (key_cols : List String)
    (update_cols : Option (List String)) (prefer_source_when_null : Bool) :
    Except SchemaError Relation :=
  let data_cols := clDataCols source target key_cols update_cols
  match firstMissing target.cols key_cols with
  | some c => .error (.missingColumn c)
  | none =>
  match firstMissing source.cols key_cols with
  | some c => .error (.missingColumn c)
  | none =>
  match firstMissing source.cols data_cols with
  | some c => .error (.missingColumn c)
  | none =>
  match firstMissing target.cols data_cols with
  | some c => .error (.missingColumn c)
  | none =>
  if prefer_source_when_null then
    match key_cols with
    | [] => .error .emptyKey
    | k0 :: _ => .ok (columnLevelCore source target key_cols data_cols k0 true)
  else
    .ok (columnLevelCore source target key_cols data_cols "" false)

/-- Number of rows of a relation whose key tuple is exactly `kt`. -/
def keyCount (rel : Relation) (keys : List String) (kt : List Cell) : Nat :=
  rel.rows.countP (fun r => decide (keyTuple rel.cols keys r = kt))

/-! ### Pandas / audit-column model (`scripts/utils.py`, `scripts/ingest.py`)

`add_audit_columns` copies its input frame, stamps `ingest_ts` and
`source_file`, and hashes every row with SHA-256 over the `'|'`-joined
`str()` representations of the row's values.  Frames live on an explicit
heap (a list of frames addressed by index) so that `df.copy()` versus
in-place column assignment is visible; the wall clock of
`datetime.utcnow().isoformat()` is passed in as an explicit string. -/

/-- Python `str()` on the scalar values we model. -/
def strOf : Val → String
  | .intV i => toString i
  | .strV s => s

/-- A pandas DataFrame: column names plus rows of (non-null) values. -/
structure PandasDF where
  cols : List String
  rows : List (List Val)
deriving DecidableEq, Repr

/-- `df[name] = v` with a scalar: broadcasts `v`; replaces the column in
place when it exists, otherwise appends it. -/
def PandasDF.setConst (df : PandasDF) (name : String) (v : Val) : PandasDF :=
  if name ∈ df.cols then
    { cols := df.cols
      rows := df.rows.map (fun r =>
        (df.cols.zip r).map (fun p => if p.1 = name then v else p.2)) }
  else
    { cols := df.cols ++ [name], rows := df.rows.map (fun r => r ++ [v]) }

/-- `df[name] = df.apply(f, axis=1)`: per-row computed column. -/
def PandasDF.setApply (df : PandasDF) (name : String) (f : List Val → Val) : PandasDF :=
  if name ∈ df.cols then
    { cols := df.cols
      rows := df.rows.map (fun r =>
        (df.cols.zip r).map (fun p => if p.1 = name then f r else p.2)) }
  else
    { cols := df.cols ++ [name], rows := df.rows.map (fun r => r ++ [f r]) }

/-- 32-bit truncation. -/
def w32 (n : Nat) : Nat := n % 4294967296

/-- Right rotation of a 32-bit word. -/
def rotr32 (n x : Nat) : Nat := w32 ((x >>> n) ||| (x <<< (32 - n)))

def sha256K : List Nat :=
  [1116352408, 1899447441, 3049323471, 3921009573, 961987163, 1508970993,
   2453635748, 2870763221, 3624381080, 310598401, 607225278, 1426881987,
   1925078388, 2162078206, 2614888103, 3248222580, 3835390401, 4022224774,
   264347078, 604807628, 770255983, 1249150122, 1555081692, 1996064986,
   2554220882, 2821834349, 2952996808, 3210313671, 3336571891, 3584528711,
   113926993, 338241895, 666307205, 773529912, 1294757372, 1396182291,
   1695183700, 1986661051, 2177026350, 2456956037, 2730485921, 2820302411,
   3259730800, 3345764771, 3516065817, 3600352804, 4094571909, 275423344,
   430227734, 506948616, 659060556, 883997877, 958139571, 1322822218,
   1537002063, 1747873779, 1955562222, 2024104815, 2227730452, 2361852424,
   2428436474, 2756734187, 3204031479, 3329325298]

def sha256InitH : List Nat :=
  [1779033703, 3144134277, 1013904242, 2773480762, 1359893119, 2600822924,
   528734635, 1541459225]

def sigma0 (x : Nat) : Nat := rotr32 7 x ^^^ rotr32 18 x ^^^ (x >>> 3)
def sigma1 (x : Nat) : Nat := rotr32 17 x ^^^ rotr32 19 x ^^^ (x >>> 10)

/-- Extend the 16 message-schedule words by `fuel` further words. -/
def extendW : Nat → List Nat → List Nat
  | 0, ws => ws
  | n + 1, ws =>
    let i := ws.length
    let wNew := w32 (ws.getD (i - 16) 0 + sigma0 (ws.getD (i - 15) 0)
                     + ws.getD (i - 7) 0 + sigma1 (ws.getD (i - 2) 0))
    extendW n (ws ++ [wNew])

/-- One SHA-256 compression round. -/
def sha256Round (st : List Nat) (kw : Nat × Nat) : List Nat :=
  match st with
  | [a, b, c, d, e, f, g, h] =>
    let bigS1 := rotr32 6 e ^^^ rotr32 11 e ^^^ rotr32 25 e
    let ch := (e &&& f) ^^^ ((e ^^^ 4294967295) &&& g)
    let temp1 := w32 (h + bigS1 + ch + kw.1 + kw.2)
    let bigS0 := rotr32 2 a ^^^ rotr32 13 a ^^^ rotr32 22 a
    let maj := (a &&& b) ^^^ (a &&& c) ^^^ (b &&& c)
    let temp2 := w32 (bigS0 + maj)
    [w32 (temp1 + temp2), a, b, c, w32 (d + temp1), e, f, g]
  | _ => st

/-- Big-endian 32-bit words from a byte list. -/
def bytesToWords : List Nat → List Nat
  | b0 :: b1 :: b2 :: b3 :: rest =>
    (b0 * 16777216 + b1 * 65536 + b2 * 256 + b3) :: bytesToWords rest
  | _ => []

/-- `k` big-endian bytes of `n`. -/
def natToBytesBE (k n : Nat) : List Nat :=
  (List.range k).map (fun i => (n >>> (8 * (k - 1 - i))) % 256)

/-- Process one 64-byte chunk. -/
def sha256Chunk (hv : List Nat) (chunk : List Nat) : List Nat :=
  let ws := extendW 48 (bytesToWords chunk)
  let st := (sha256K.zip ws).foldl sha256Round hv
  (hv.zip st).map (fun p => w32 (p.1 + p.2))

/-- Split into 64-byte chunks (`fuel` bounds the recursion). -/
def chunksGo : Nat → List Nat → List (List Nat)
  | 0, _ => []
  | _ + 1, [] => []
  | n + 1, l => l.take 64 :: chunksGo n (l.drop 64)

/-- SHA-256 padding: `0x80`, zeros to 56 mod 64, 8-byte bit length. -/
def sha256Pad (msg : List Nat) : List Nat :=
  let padLen := (64 + 56 - (msg.length + 1) % 64) % 64
  msg ++ [0x80] ++ List.replicate padLen 0 ++ natToBytesBE 8 (8 * msg.length)

def hexChar (n : Nat) : String :=
  match n with
  | 0 => "0" | 1 => "1" | 2 => "2" | 3 => "3" | 4 => "4" | 5 => "5" | 6 => "6" | 7 => "7"
  | 8 => "8" | 9 => "9" | 10 => "a" | 11 => "b" | 12 => "c" | 13 => "d" | 14 => "e"
  | _ => "f"

/-- Lowercase hex of a 32-bit word. -/
def toHex32 (x : Nat) : String :=
  String.join (((List.range 8).map (fun i => hexChar ((x >>> (4 * (7 - i))) % 16))))

/-- UTF-8 encoding of one character. -/
def encodeChar (c : Char) : List Nat :=
  let n := c.toNat
  if n < 128 then [n]
  else if n < 2048 then [192 + n / 64, 128 + n % 64]
  else if n < 65536 then [224 + n / 4096, 128 + (n / 64) % 64, 128 + n % 64]
  else [240 + n / 262144, 128 + (n / 4096) % 64, 128 + (n / 64) % 64, 128 + n % 64]

/-- UTF-8 bytes of a string (`.encode('utf-8')`). -/
def strToBytes (s : String) : List Nat :=
  (s.toList.map encodeChar).flatten

/-- `hashlib.sha256(bytes).hexdigest()`. -/
def sha256hex (msg : List Nat) : String :=
  let padded := sha256Pad msg
  let hv := (chunksGo padded.length padded).foldl sha256Chunk sha256InitH
  String.join (hv.map toHex32)

/-- `'|'.join([str(x) for x in row.values.tolist()])`. -/
def joinPipe (l : List String) : String :=
  String.intercalate "|" l

/-- `row_hash` of `scripts/utils.py` / `record_hash` of `scripts/ingest.py`:
SHA-256 hex digest of the pipe-joined stringified row. -/
def rowHashVal (r : List Val) : Val :=
  .strV (sha256hex (strToBytes (joinPipe (r.map strOf))))

/-- `add_audit_columns(df, source_file)` of `scripts/utils.py`, run against
an explicit heap of frames: `df = df.copy()` allocates a fresh frame at the
end of the heap; the three column assignments then mutate only that fresh
frame; the result is (final heap, index of the returned frame).  `ts` is
the `datetime.utcnow().isoformat()` string. -/
def add_audit_columns (h : List PandasDF) (r : Nat) (source_file ts : String) :
    List PandasDF × Nat :=
  let h1 := h ++ [h.getD r ⟨[], []⟩]
  let r1 := h.length
  let h2 := h1.set r1 ((h1.getD r1 ⟨[], []⟩).setConst "ingest_ts" (.strV ts))
  let h3 := h2.set r1 ((h2.getD r1 ⟨[], []⟩).setConst "source_file" (.strV source_file))
  let h4 := h3.set r1 ((h3.getD r1 ⟨[], []⟩).setApply "record_hash" rowHashVal)
  (h4, r1)

/-! ### Lemmas about cells, tuples and row reshaping -/

theorem getCell_map (cs : List String) (f : String → Cell) (c : String) (h : c ∈ cs) :
    getCell cs (cs.map f) c = f c := by
  induction cs with
  | nil => cases h
  | cons x xs ih =>
    simp only [List.map_cons, getCell]
    by_cases hx : x = c
    · subst hx; simp
    · rw [if_neg hx]
      exact ih ((List.mem_cons.mp h).resolve_left (fun hc => hx hc.symm))

theorem reshapeRow_self (cs : List String) (r : List Cell)
    (hnd : cs.Nodup) (hl : r.length = cs.length) : reshapeRow cs r cs = r := by
  induction cs generalizing r with
  | nil => cases r with
    | nil => rfl
    | cons a as => simp at hl
  | cons x xs ih =>
    cases r with
    | nil => simp at hl
    | cons a as =>
      simp only [List.nodup_cons] at hnd
      simp only [List.length_cons, Nat.succ.injEq] at hl
      simp only [reshapeRow, List.map_cons, getCell, if_pos rfl]
      congr 1
      have hcongr : ∀ y ∈ xs, (if x = y then a else getCell xs as y) = getCell xs as y := by
        intro y hy
        apply if_neg
        intro hxy
        exact hnd.1 (by rw [hxy]; exact hy)
      rw [List.map_congr_left hcongr]
      exact ih as hnd.2 hl

theorem keyTuple_reshape (cols newCols keys : List String) (r : List Cell)
    (h : ∀ k ∈ keys, k ∈ newCols) :
    keyTuple newCols keys (reshapeRow cols r newCols) = keyTuple cols keys r := by
  unfold keyTuple reshapeRow
  exact List.map_congr_left (fun k hk => getCell_map newCols _ k (h k hk))

theorem tupleMatch_self (a : List Cell) (h : allSome a = true) : tupleMatch a a = true := by
  induction a with
  | nil => rfl
  | cons x xs ih =>
    cases x with
    | none => simp [allSome] at h
    | some v =>
      rw [allSome] at h
      simp [tupleMatch, ih h]

theorem tupleMatch_iff (a b : List Cell) (h : allSome a = true) :
    tupleMatch a b = true ↔ b = a := by
  induction a generalizing b with
  | nil =>
    cases b with
    | nil => simp [tupleMatch]
    | cons y ys => simp [tupleMatch]
  | cons x xs ih =>
    cases x with
    | none => simp [allSome] at h
    | some v =>
      rw [allSome] at h
      cases b with
      | nil => simp [tupleMatch]
      | cons y ys =>
        cases y with
        | none => simp [tupleMatch]
        | some w =>
          simp only [tupleMatch, Bool.and_eq_true, decide_eq_true_eq, ih ys h,
            List.cons.injEq, Option.some.injEq]
          constructor
          · rintro ⟨hvw, rfl⟩; exact ⟨hvw.symm, rfl⟩
          · rintro ⟨hwv, rfl⟩; exact ⟨hwv.symm, rfl⟩

theorem allSome_mem {l : List Cell} (h : allSome l = true) {x : Cell} (hx : x ∈ l) :
    x.isSome = true := by
  induction l with
  | nil => cases hx
  | cons y ys ih =>
    cases y with
    | none => simp [allSome] at h
    | some v =>
      rw [allSome] at h
      rcases List.mem_cons.mp hx with rfl | hx'
      · rfl
      · exact ih h hx'

/-! ### Generic counting and search lemmas -/

theorem countP_congr' {α : Type} (l : List α) (p q : α → Bool)
    (h : ∀ x ∈ l, p x = q x) : l.countP p = l.countP q := by
  rw [List.countP_eq_length_filter, List.countP_eq_length_filter, List.filter_congr h]

theorem countP_key_nodup {α β : Type} [DecidableEq β] (l : List α) (f : α → β)
    (hnd : (l.map f).Nodup) (v : β) :
    l.countP (fun x => decide (f x = v)) = if v ∈ l.map f then 1 else 0 := by
  induction l with
  | nil => simp
  | cons a l ih =>
    simp only [List.map_cons, List.nodup_cons] at hnd
    rw [List.countP_cons, ih hnd.2]
    by_cases hv : f a = v
    · subst hv
      have : f a ∉ l.map f := hnd.1
      simp [this]
    · have hne : ¬v = f a := fun hvv => hv hvv.symm
      simp [hv, List.mem_cons, hne]

theorem find?_key_unique {α β : Type} [DecidableEq β] (l : List α) (f : α → β)
    (hnd : (l.map f).Nodup) (a : α) (ha : a ∈ l) :
    l.find? (fun x => decide (f x = f a)) = some a := by
  induction l with
  | nil => cases ha
  | cons b l ih =>
    simp only [List.map_cons, List.nodup_cons] at hnd
    rcases List.mem_cons.mp ha with rfl | ha'
    · exact List.find?_cons_of_pos _ (by simp)
    · by_cases hba : f b = f a
      · exact absurd (hba ▸ List.mem_map_of_mem f ha') hnd.1
      · rw [List.find?_cons_of_neg _ (by simpa using hba)]
        exact ih hnd.2 ha'

/-! ### Sorting, data-column and success-path lemmas -/

theorem insSorted_perm (a : String) (l : List String) :
    List.Perm (insSorted a l) (a :: l) := by
  induction l with
  | nil => exact List.Perm.refl _
  | cons b bs ih =>
    rw [insSorted]
    split
    · exact List.Perm.refl _
    · exact (ih.cons b).trans (List.Perm.swap a b bs)

theorem sortStrings_perm (l : List String) : List.Perm (sortStrings l) l := by
  induction l with
  | nil => exact List.Perm.refl _
  | cons a l ih =>
    exact (insSorted_perm a (sortStrings l)).trans (ih.cons a)

theorem mem_sortStrings {x : String} {l : List String} : x ∈ sortStrings l ↔ x ∈ l :=
  (sortStrings_perm l).mem_iff

theorem nodup_sortStrings {l : List String} (h : l.Nodup) : (sortStrings l).Nodup :=
  ((sortStrings_perm l).nodup_iff).mpr h

theorem mem_clDataCols {source target : Relation} {key_cols : List String}
    {uc : Option (List String)} {c : String} (h : c ∈ clDataCols source target key_cols uc) :
    (c ∈ target.cols ∨ c ∈ source.cols) ∧ c ∉ key_cols := by
  have hdc : c ∈ clBaseCols source target key_cols := by
    cases uc with
    | none => simpa [clDataCols] using h
    | some u =>
      by_cases hu : u.isEmpty
      · simpa [clDataCols, hu] using h
      · have h' : c ∈ (clBaseCols source target key_cols).filter
            (fun c => u.contains c) := by simpa [clDataCols, hu] using h
        exact (List.mem_filter.mp h').1
  rw [clBaseCols, mem_sortStrings] at hdc
  have hf := List.mem_filter.mp hdc
  refine ⟨?_, by simpa using hf.2⟩
  simpa using List.mem_append.mp (List.mem_dedup.mp hf.1)

theorem mem_clDataCols_none {source target : Relation} {key_cols : List String} {c : String}
    (hc : c ∈ target.cols ∨ c ∈ source.cols) (hk : c ∉ key_cols) :
    c ∈ clDataCols source target key_cols none := by
  show c ∈ clBaseCols source target key_cols
  rw [clBaseCols, mem_sortStrings]
  exact List.mem_filter.mpr ⟨List.mem_dedup.mpr (List.mem_append.mpr hc), by simpa using hk⟩

theorem firstMissing_eq_none {cols need : List String} :
    firstMissing cols need = none ↔ ∀ c ∈ need, c ∈ cols := by
  simp [firstMissing, List.find?_eq_none]

theorem full_replace_ok (source target : Relation) (key_cols : List String)
    (h1 : ∀ k ∈ key_cols, k ∈ source.cols) (h2 : ∀ k ∈ key_cols, k ∈ target.cols) :
    scd_type1_full_replace source target key_cols =
      .ok (fullReplaceCore source target key_cols) := by
  unfold scd_type1_full_replace
  rw [firstMissing_eq_none.mpr h1, firstMissing_eq_none.mpr h2]

theorem column_level_ok_default (source target : Relation) (key_cols : List String)
    (uc : Option (List String))
    (h1 : ∀ k ∈ key_cols, k ∈ target.cols) (h2 : ∀ k ∈ key_cols, k ∈ source.cols)
    (h3 : ∀ c ∈ clDataCols source target key_cols uc, c ∈ source.cols)
    (h4 : ∀ c ∈ clDataCols source target key_cols uc, c ∈ target.cols) :
    scd_type1_column_level source target key_cols uc false =
      .ok (columnLevelCore source target key_cols
            (clDataCols source target key_cols uc) "" false) := by
  simp only [scd_type1_column_level]
  rw [firstMissing_eq_none.mpr h1, firstMissing_eq_none.mpr h2,
      firstMissing_eq_none.mpr h3, firstMissing_eq_none.mpr h4]
  rfl

theorem column_level_ok_prefer (source target : Relation) (k0 : String)
    (krest : List String) (uc : Option (List String))
    (h1 : ∀ k ∈ k0 :: krest, k ∈ target.cols) (h2 : ∀ k ∈ k0 :: krest, k ∈ source.cols)
    (h3 : ∀ c ∈ clDataCols source target (k0 :: krest) uc, c ∈ source.cols)
    (h4 : ∀ c ∈ clDataCols source target (k0 :: krest) uc, c ∈ target.cols) :
    scd_type1_column_level source target (k0 :: krest) uc true =
      .ok (columnLevelCore source target (k0 :: krest)
            (clDataCols source target (k0 :: krest) uc) k0 true) := by
  simp only [scd_type1_column_level]
  rw [firstMissing_eq_none.mpr h1, firstMissing_eq_none.mpr h2,
      firstMissing_eq_none.mpr h3, firstMissing_eq_none.mpr h4]
  rfl

/-! ### Full outer join: key values and cardinality -/

theorem tupleMatch_eq (a b : List Cell) (h : allSome a = true) :
    tupleMatch a b = decide (b = a) := by
  by_cases hb : b = a
  · simp [hb, tupleMatch_self a h]
  · simp only [hb, decide_False]
    rw [Bool.eq_false_iff]
    intro hm
    exact hb ((tupleMatch_iff a b h).mp hm)

theorem outKeyTuple_left (scols tcols keys : List String) (tr : List Cell) :
    outKeyTuple scols tcols keys (some tr, none) = keyTuple tcols keys tr := rfl

theorem outKeyTuple_some_right (scols tcols keys : List String)
    (p1 : Option (List Cell)) (sr : List Cell)
    (h : allSome (keyTuple scols keys sr) = true) :
    outKeyTuple scols tcols keys (p1, some sr) = keyTuple scols keys sr := by
  unfold outKeyTuple keyTuple
  apply List.map_congr_left
  intro k hk
  have hs : (getCell scols sr k).isSome = true :=
    allSome_mem h (List.mem_map_of_mem _ hk)
  obtain ⟨v, hv⟩ := Option.isSome_iff_exists.mp hs
  simp [clKeyCell, sideCell, hv]

theorem length_filter_key_nodup {α β : Type} [DecidableEq β] (l : List α) (f : α → β)
    (hnd : (l.map f).Nodup) (v : β) :
    (l.filter (fun x => decide (f x = v))).length = if v ∈ l.map f then 1 else 0 := by
  rw [← List.countP_eq_length_filter]
  exact countP_key_nodup l f hnd v

theorem countP_match_branch (ms : List (List Cell)) (tr : List Cell)
    (p : Option (List Cell) × Option (List Cell) → Bool) :
    (match ms with
     | [] => [((some tr : Option (List Cell)), (none : Option (List Cell)))]
     | _ :: _ => ms.map (fun sr => (some tr, some sr))).countP p =
    if ms.isEmpty then (if p (some tr, none) then 1 else 0)
    else ms.countP (fun sr => p (some tr, some sr)) := by
  cases ms with
  | nil => simp [List.countP_cons]
  | cons m0 mrest => simp [List.countP_map, List.countP_cons, Function.comp_def]

theorem countP_fojPart1 (tcols scols keys : List String) (srows : List (List Cell))
    (hnns : ∀ sr ∈ srows, allSome (keyTuple scols keys sr) = true)
    (hnds : (srows.map (keyTuple scols keys)).Nodup)
    (trows : List (List Cell))
    (hnnt : ∀ tr ∈ trows, allSome (keyTuple tcols keys tr) = true)
    (kt : List Cell) :
    (fojPart1 tcols trows scols srows keys).countP
        (fun p => decide (outKeyTuple scols tcols keys p = kt)) =
      trows.countP (fun tr => decide (keyTuple tcols keys tr = kt)) := by
  induction trows with
  | nil => simp [fojPart1]
  | cons tr trows ih =>
    have htr : allSome (keyTuple tcols keys tr) = true :=
      hnnt tr (List.mem_cons_self tr trows)
    have htail := ih (fun x hx => hnnt x (List.mem_cons_of_mem tr hx))
    have hexp : fojPart1 tcols (tr :: trows) scols srows keys =
        (match srows.filter (fun sr =>
            tupleMatch (keyTuple tcols keys tr) (keyTuple scols keys sr)) with
         | [] => [(some tr, none)]
         | _ :: _ => (srows.filter (fun sr =>
            tupleMatch (keyTuple tcols keys tr) (keyTuple scols keys sr))).map
              (fun sr => (some tr, some sr)))
        ++ fojPart1 tcols trows scols srows keys := rfl
    rw [hexp, List.countP_append, htail, List.countP_cons, countP_match_branch]
    have hhead : (if (srows.filter (fun sr =>
            tupleMatch (keyTuple tcols keys tr) (keyTuple scols keys sr))).isEmpty then
          (if decide (outKeyTuple scols tcols keys ((some tr), none) = kt) then 1 else 0)
        else (srows.filter (fun sr =>
            tupleMatch (keyTuple tcols keys tr) (keyTuple scols keys sr))).countP
          (fun sr => decide (outKeyTuple scols tcols keys (some tr, some sr) = kt))) =
        if keyTuple tcols keys tr = kt then 1 else 0 := by
      rcases hmsc : srows.filter (fun sr =>
          tupleMatch (keyTuple tcols keys tr) (keyTuple scols keys sr)) with _ | ⟨m0, mrest⟩
      · rw [if_pos (show ([] : List (List Cell)).isEmpty = true from rfl), outKeyTuple_left]
        by_cases hq : keyTuple tcols keys tr = kt <;> simp [hq]
      · rw [if_neg (by simp : ¬((m0 :: mrest).isEmpty = true))]
        have hconst : ∀ sr ∈ (m0 :: mrest),
            (decide (outKeyTuple scols tcols keys (some tr, some sr) = kt)) =
            decide (keyTuple tcols keys tr = kt) := by
          intro sr hsr
          have hsr' : sr ∈ srows.filter (fun sr =>
              tupleMatch (keyTuple tcols keys tr) (keyTuple scols keys sr)) := by
            rw [hmsc]; exact hsr
          have hmem := List.mem_filter.mp hsr'
          have hkeq : keyTuple scols keys sr = keyTuple tcols keys tr :=
            (tupleMatch_iff _ _ htr).mp hmem.2
          rw [outKeyTuple_some_right scols tcols keys _ sr (hnns sr hmem.1), hkeq]
        rw [countP_congr' _ _ _ hconst]
        have hlen : (m0 :: mrest).length = 1 := by
          rw [← hmsc,
              List.filter_congr (fun sr _ => tupleMatch_eq _ (keyTuple scols keys sr) htr),
              length_filter_key_nodup srows (keyTuple scols keys) hnds]
          have hm0 : m0 ∈ srows.filter (fun sr =>
              tupleMatch (keyTuple tcols keys tr) (keyTuple scols keys sr)) := by
            rw [hmsc]; exact List.mem_cons_self m0 mrest
          have hmem0 := List.mem_filter.mp hm0
          have hkeq0 : keyTuple scols keys m0 = keyTuple tcols keys tr :=
            (tupleMatch_iff _ _ htr).mp hmem0.2
          rw [if_pos (hkeq0 ▸ List.mem_map_of_mem _ hmem0.1)]
        by_cases hq : keyTuple tcols keys tr = kt
        · simp only [hq, decide_True]
          rw [List.countP_true]
          exact hlen
        · simp [hq]
    rw [hhead]
    by_cases hq : keyTuple tcols keys tr = kt <;> simp [hq, Nat.add_comm]

theorem any_tupleMatch (tcols keys : List String) (trows : List (List Cell))
    (hnnt : ∀ tr ∈ trows, allSome (keyTuple tcols keys tr) = true) (x : List Cell) :
    trows.any (fun tr => tupleMatch (keyTuple tcols keys tr) x) =
      decide (x ∈ trows.map (keyTuple tcols keys)) := by
  induction trows with
  | nil => simp
  | cons tr trows ih =>
    rw [List.any_cons, ih (fun a ha => hnnt a (List.mem_cons_of_mem tr ha)),
        tupleMatch_eq _ x (hnnt tr (List.mem_cons_self tr trows))]
    by_cases h1 : x = keyTuple tcols keys tr <;>
      by_cases h2 : x ∈ trows.map (keyTuple tcols keys) <;>
      simp [h1, h2]

theorem countP_fojPart2 (tcols scols keys : List String)
    (trows srows : List (List Cell))
    (hnnt : ∀ tr ∈ trows, allSome (keyTuple tcols keys tr) = true)
    (hnns : ∀ sr ∈ srows, allSome (keyTuple scols keys sr) = true)
    (kt : List Cell) :
    (fojPart2 tcols trows scols srows keys).countP
        (fun p => decide (outKeyTuple scols tcols keys p = kt)) =
      if kt ∈ trows.map (keyTuple tcols keys) then 0
      else srows.countP (fun sr => decide (keyTuple scols keys sr = kt)) := by
  rw [fojPart2, List.countP_map, List.countP_filter]
  by_cases hmem : kt ∈ trows.map (keyTuple tcols keys)
  · rw [if_pos hmem, List.countP_eq_zero]
    intro sr hsr
    simp only [Function.comp, Bool.and_eq_true, decide_eq_true_eq, Bool.not_eq_true',
      any_tupleMatch tcols keys trows hnnt]
    rintro ⟨hout, hnm⟩
    rw [outKeyTuple_some_right scols tcols keys none sr (hnns sr hsr)] at hout
    rw [decide_eq_false_iff_not] at hnm
    exact hnm (hout ▸ hmem)
  · rw [if_neg hmem]
    apply countP_congr'
    intro sr hsr
    simp only [Function.comp]
    rw [outKeyTuple_some_right scols tcols keys none sr (hnns sr hsr),
        any_tupleMatch tcols keys trows hnnt]
    by_cases h1 : keyTuple scols keys sr = kt
    · simp [h1, hmem]
    · simp [h1]

theorem countP_fullOuterJoin (target source : Relation) (keys : List String)
    (hnnt : ∀ tr ∈ target.rows, allSome (keyTuple target.cols keys tr) = true)
    (hnns : ∀ sr ∈ source.rows, allSome (keyTuple source.cols keys sr) = true)
    (hndt : (target.rows.map (keyTuple target.cols keys)).Nodup)
    (hnds : (source.rows.map (keyTuple source.cols keys)).Nodup)
    (kt : List Cell) :
    (fullOuterJoin target source keys).countP
        (fun p => decide (outKeyTuple source.cols target.cols keys p = kt)) =
      if kt ∈ target.rows.map (keyTuple target.cols keys)
          ∨ kt ∈ source.rows.map (keyTuple source.cols keys) then 1 else 0 := by
  rw [fullOuterJoin, List.countP_append,
      countP_fojPart1 target.cols source.cols keys source.rows hnns hnds target.rows hnnt kt,
      countP_fojPart2 target.cols source.cols keys target.rows source.rows hnnt hnns kt,
      countP_key_nodup target.rows (keyTuple target.cols keys) hndt kt]
  rw [countP_key_nodup source.rows (keyTuple source.cols keys) hnds kt]
  by_cases h1 : kt ∈ target.rows.map (keyTuple target.cols keys) <;>
    by_cases h2 : kt ∈ source.rows.map (keyTuple source.cols keys) <;>
    simp [h1, h2]

/-! ### Access to output rows of the column-level merge -/

theorem clOutRow_eq_map (scols tcols keys dcols : List String) (k0 : String) (prefer : Bool)
    (p : Option (List Cell) × Option (List Cell)) (hd : ∀ x ∈ dcols, x ∉ keys) :
    clOutRow scols tcols keys dcols k0 prefer p =
      (keys ++ dcols).map (fun x =>
        if x ∈ keys then clKeyCell scols tcols p x
        else clDataCell scols tcols k0 prefer p x) := by
  rw [clOutRow, List.map_append]
  congr 1
  · exact List.map_congr_left (fun k hk => (if_pos hk).symm)
  · exact List.map_congr_left (fun x hx => (if_neg (hd x hx)).symm)

theorem getCell_clOutRow (scols tcols keys dcols : List String) (k0 : String) (prefer : Bool)
    (p : Option (List Cell) × Option (List Cell)) (c : String)
    (hd : ∀ x ∈ dcols, x ∉ keys) (hc : c ∈ keys ++ dcols) :
    getCell (keys ++ dcols) (clOutRow scols tcols keys dcols k0 prefer p) c =
      if c ∈ keys then clKeyCell scols tcols p c
      else clDataCell scols tcols k0 prefer p c := by
  rw [clOutRow_eq_map scols tcols keys dcols k0 prefer p hd, getCell_map _ _ _ hc]

theorem keyTuple_clOutRow (scols tcols keys dcols : List String) (k0 : String) (prefer : Bool)
    (p : Option (List Cell) × Option (List Cell)) (hd : ∀ x ∈ dcols, x ∉ keys) :
    keyTuple (keys ++ dcols) keys (clOutRow scols tcols keys dcols k0 prefer p) =
      outKeyTuple scols tcols keys p := by
  unfold keyTuple outKeyTuple
  apply List.map_congr_left
  intro k hk
  rw [show getCell (keys ++ dcols) (clOutRow scols tcols keys dcols k0 prefer p) k =
      if k ∈ keys then clKeyCell scols tcols p k else clDataCell scols tcols k0 prefer p k from
      getCell_clOutRow scols tcols keys dcols k0 prefer p k hd (List.mem_append_left _ hk),
    if_pos hk]

/-! ### Which joined pair carries a given key -/

theorem mem_fullOuterJoin_char (target source : Relation) (keys : List String)
    (hnnt : ∀ tr ∈ target.rows, allSome (keyTuple target.cols keys tr) = true)
    (hnns : ∀ sr ∈ source.rows, allSome (keyTuple source.cols keys sr) = true)
    (hndt : (target.rows.map (keyTuple target.cols keys)).Nodup)
    (hnds : (source.rows.map (keyTuple source.cols keys)).Nodup)
    (p : Option (List Cell) × Option (List Cell))
    (hp : p ∈ fullOuterJoin target source keys) (kt : List Cell)
    (hkt : outKeyTuple source.cols target.cols keys p = kt) :
    p = (target.rows.find? (fun r => decide (keyTuple target.cols keys r = kt)),
         source.rows.find? (fun r => decide (keyTuple source.cols keys r = kt))) := by
  rcases List.mem_append.mp hp with h1 | h2
  · rcases List.mem_flatMap.mp h1 with ⟨tr, htrm, hpin⟩
    have htr : allSome (keyTuple target.cols keys tr) = true := hnnt tr htrm
    rcases hmsc : source.rows.filter (fun sr =>
        tupleMatch (keyTuple target.cols keys tr) (keyTuple source.cols keys sr))
      with _ | ⟨m0, mrest⟩
    · rw [hmsc] at hpin
      simp only [List.mem_singleton] at hpin
      subst hpin
      rw [outKeyTuple_left] at hkt
      have hfT : target.rows.find? (fun r => decide (keyTuple target.cols keys r = kt)) =
          some tr := by
        rw [← hkt]
        exact find?_key_unique target.rows (keyTuple target.cols keys) hndt tr htrm
      have hfS : source.rows.find? (fun r => decide (keyTuple source.cols keys r = kt)) =
          none := by
        rw [List.find?_eq_none]
        intro sr hsr
        simp only [decide_eq_true_eq]
        intro hsk
        have hm : tupleMatch (keyTuple target.cols keys tr) (keyTuple source.cols keys sr) =
            true := by
          rw [tupleMatch_eq _ _ htr, decide_eq_true_eq, hsk, hkt]
        have : sr ∈ source.rows.filter (fun sr =>
            tupleMatch (keyTuple target.cols keys tr) (keyTuple source.cols keys sr)) :=
          List.mem_filter.mpr ⟨hsr, hm⟩
        rw [hmsc] at this
        cases this
      rw [hfT, hfS]
    · rw [hmsc] at hpin
      have hpin' : p ∈ (source.rows.filter (fun sr =>
          tupleMatch (keyTuple target.cols keys tr) (keyTuple source.cols keys sr))).map
            (fun sr => ((some tr : Option (List Cell)), some sr)) := by
        rw [hmsc]; exact hpin
      rcases List.mem_map.mp hpin' with ⟨sr, hsrm, hpe⟩
      have hmem := List.mem_filter.mp hsrm
      have hkeq : keyTuple source.cols keys sr = keyTuple target.cols keys tr :=
        (tupleMatch_iff _ _ htr).mp hmem.2
      subst hpe
      rw [outKeyTuple_some_right source.cols target.cols keys _ sr (hnns sr hmem.1)] at hkt
      have hfS : source.rows.find? (fun r => decide (keyTuple source.cols keys r = kt)) =
          some sr := by
        rw [← hkt]
        exact find?_key_unique source.rows (keyTuple source.cols keys) hnds sr hmem.1
      have hfT : target.rows.find? (fun r => decide (keyTuple target.cols keys r = kt)) =
          some tr := by
        rw [← hkt, hkeq]
        exact find?_key_unique target.rows (keyTuple target.cols keys) hndt tr htrm
      rw [hfT, hfS]
  · rcases List.mem_map.mp h2 with ⟨sr, hsrm, hpe⟩
    have hmem := List.mem_filter.mp hsrm
    subst hpe
    rw [outKeyTuple_some_right source.cols target.cols keys _ sr (hnns sr hmem.1)] at hkt
    have hfS : source.rows.find? (fun r => decide (keyTuple source.cols keys r = kt)) =
        some sr := by
      rw [← hkt]
      exact find?_key_unique source.rows (keyTuple source.cols keys) hnds sr hmem.1
    have hfT : target.rows.find? (fun r => decide (keyTuple target.cols keys r = kt)) =
        none := by
      rw [List.find?_eq_none]
      intro tr htrm
      simp only [decide_eq_true_eq]
      intro htk
      have hany := hmem.2
      rw [Bool.not_eq_true'] at hany
      have : target.rows.any (fun tr =>
          tupleMatch (keyTuple target.cols keys tr) (keyTuple source.cols keys sr)) = true := by
        rw [List.any_eq_true]
        refine ⟨tr, htrm, ?_⟩
        rw [tupleMatch_eq _ _ (hnnt tr htrm), decide_eq_true_eq, hkt, htk]
      rw [this] at hany
      cases hany
    rw [hfT, hfS]

/-! ### Remaining helper lemmas for the full-replace counting argument -/

theorem firstMissing_isSome_of (cols need : List String) (k : String)
    (hk : k ∈ need) (hmiss : k ∉ cols) : ∃ c, firstMissing cols need = some c := by
  rw [← Option.isSome_iff_exists, firstMissing, List.find?_isSome]
  exact ⟨k, hk, by simpa using hmiss⟩

theorem any_tupleMatch_fixed (l : List (List Cell)) (kt : List Cell)
    (h : allSome kt = true) :
    (l.any (fun x => tupleMatch kt x)) = decide (kt ∈ l) := by
  induction l with
  | nil => simp
  | cons a l ih =>
    rw [List.any_cons, ih, tupleMatch_eq kt a h]
    by_cases h1 : a = kt <;> by_cases h2 : kt ∈ l
    · simp [h1, h2]
    · simp [h1, h2]
    · simp [h1, h2]
    · simp only [h2, decide_False, Bool.or_false]
      simp [h1]
      exact ⟨fun hh => h1 hh.symm, h2⟩

theorem keyCount_pos_iff (rel : Relation) (keys : List String) (kt : List Cell) :
    kt ∈ rel.rows.map (fun r => keyTuple rel.cols keys r) ↔ keyCount rel keys kt ≠ 0 := by
  unfold keyCount
  rw [Ne, List.countP_eq_zero]
  constructor
  · rintro hm hall
    rcases List.mem_map.mp hm with ⟨r, hr, hkeq⟩
    exact absurd hkeq (by simpa using hall r hr)
  · intro h
    by_contra hn
    apply h
    intro r hr
    simp only [decide_eq_true_eq]
    intro hkeq
    exact hn (List.mem_map.mpr ⟨r, hr, hkeq⟩)

/-- C6: if some key column is missing from either input's schema, both
merge operations fail eagerly with a `SchemaError`. -/
theorem C6_schema_error (source target : Relation) (key_cols : List String) (k : String)
    (hk : k ∈ key_cols) (hmiss : k ∉ source.cols ∨ k ∉ target.cols) :
    (∃ e, scd_type1_full_replace source target key_cols = .error e) ∧
    (∀ uc prefer, ∃ e, scd_type1_column_level source target key_cols uc prefer = .error e) := by
  constructor
  · unfold scd_type1_full_replace
    rcases hc1 : firstMissing source.cols key_cols with _ | c
    · have hall := firstMissing_eq_none.mp hc1
      have hmt : k ∉ target.cols := hmiss.resolve_left (fun h => h (hall k hk))
      obtain ⟨c, hc2⟩ := firstMissing_isSome_of target.cols key_cols k hk hmt
      rw [hc2]
      exact ⟨_, rfl⟩
    · exact ⟨_, rfl⟩
  · intro uc prefer
    unfold scd_type1_column_level
    rcases hc1 : firstMissing target.cols key_cols with _ | c
    · have hall := firstMissing_eq_none.mp hc1
      have hms : k ∉ source.cols := hmiss.resolve_right (fun h => h (hall k hk))
      obtain ⟨c, hc2⟩ := firstMissing_isSome_of source.cols key_cols k hk hms
      rw [hc2]
      exact ⟨_, rfl⟩
    · exact ⟨_, rfl⟩

/-- Witness for C6 at a concrete input: key column `id` is present in the
target schema but absent from the source schema. -/
theorem C6_schema_error_witness :
    (∃ e, scd_type1_full_replace ⟨["a"], []⟩ ⟨["id"], []⟩ ["id"] = .error e) ∧
    (∀ uc prefer, ∃ e,
      scd_type1_column_level ⟨["a"], []⟩ ⟨["id"], []⟩ ["id"] uc prefer = .error e) :=
  C6_schema_error ⟨["a"], []⟩ ⟨["id"], []⟩ ["id"] "id" (by decide) (Or.inl (by decide))

/-- C1 (amended): over fully non-null key tuples, the full-replace result
carries a key exactly `count_source kt` times when the key occurs in
`source`, and `count_target kt` times otherwise.  In particular keys of
`source` keep their source multiplicity, keys only in `target` keep their
target multiplicity (not necessarily once), and keys absent from both
never appear. -/
theorem C1_full_replace_counts (source target : Relation) (key_cols : List String)
    (kt : List Cell)
    (hks : ∀ k ∈ key_cols, k ∈ source.cols) (hkt : ∀ k ∈ key_cols, k ∈ target.cols)
    (hnn : allSome kt = true) :
    ∃ rel, scd_type1_full_replace source target key_cols = .ok rel ∧
      keyCount rel key_cols kt =
        keyCount source key_cols kt +
        (if keyCount source key_cols kt = 0 then keyCount target key_cols kt else 0) := by
  refine ⟨_, full_replace_ok source target key_cols hks hkt, ?_⟩
  have hkres : ∀ k ∈ key_cols, k ∈ unionByNameCols source.cols target.cols := by
    intro k hk
    exact List.mem_append_left _ (hks k hk)
  have hcount : keyCount (fullReplaceCore source target key_cols) key_cols kt =
      (source.rows.map
        (fun r => reshapeRow source.cols r (unionByNameCols source.cols target.cols))).countP
        (fun r => decide (keyTuple (unionByNameCols source.cols target.cols) key_cols r = kt))
      + ((frUnchanged source target key_cols).map
        (fun r => reshapeRow target.cols r (unionByNameCols source.cols target.cols))).countP
        (fun r => decide (keyTuple (unionByNameCols source.cols target.cols) key_cols r = kt)) := by
    unfold keyCount fullReplaceCore
    rw [List.countP_append]
  rw [hcount]
  have hA : (source.rows.map
        (fun r => reshapeRow source.cols r (unionByNameCols source.cols target.cols))).countP
        (fun r => decide (keyTuple (unionByNameCols source.cols target.cols) key_cols r = kt)) =
      keyCount source key_cols kt := by
    rw [List.countP_map]
    apply countP_congr'
    intro r hr
    simp only [Function.comp]
    rw [keyTuple_reshape source.cols _ key_cols r hkres]
  have hB : ((frUnchanged source target key_cols).map
        (fun r => reshapeRow target.cols r (unionByNameCols source.cols target.cols))).countP
        (fun r => decide (keyTuple (unionByNameCols source.cols target.cols) key_cols r = kt)) =
      if keyCount source key_cols kt = 0 then keyCount target key_cols kt else 0 := by
    rw [List.countP_map]
    have hstep : (frUnchanged source target key_cols).countP
        ((fun r => decide (keyTuple (unionByNameCols source.cols target.cols) key_cols r = kt)) ∘
          (fun r => reshapeRow target.cols r (unionByNameCols source.cols target.cols))) =
        (frUnchanged source target key_cols).countP
          (fun r => decide (keyTuple target.cols key_cols r = kt)) := by
      apply countP_congr'
      intro r hr
      simp only [Function.comp]
      rw [keyTuple_reshape target.cols _ key_cols r hkres]
    rw [hstep, frUnchanged, List.countP_filter]
    by_cases hz : keyCount source key_cols kt = 0
    · rw [if_pos hz]
      have hpt : ∀ r ∈ target.rows,
          ((decide (keyTuple target.cols key_cols r = kt)) &&
            !(frSrcKeys source key_cols).any
              (fun x => tupleMatch (keyTuple target.cols key_cols r) x)) =
          decide (keyTuple target.cols key_cols r = kt) := by
        intro r hr
        by_cases hk : keyTuple target.cols key_cols r = kt
        · rw [hk, any_tupleMatch_fixed _ kt hnn]
          have hnotin : kt ∉ frSrcKeys source key_cols := by
            rw [frSrcKeys, List.mem_dedup]
            intro hmem
            exact (keyCount_pos_iff source key_cols kt).mp hmem hz
          simp [hnotin]
        · simp [hk]
      rw [countP_congr' _ _ _ hpt]
      rfl
    · rw [if_neg hz, List.countP_eq_zero]
      intro r hr
      simp only [Bool.and_eq_true, decide_eq_true_eq, Bool.not_eq_true']
      rintro ⟨hk, hany⟩
      rw [hk, any_tupleMatch_fixed _ kt hnn, decide_eq_false_iff_not] at hany
      apply hany
      rw [frSrcKeys, List.mem_dedup]
      exact (keyCount_pos_iff source key_cols kt).mpr hz
  rw [hA, hB]

/-- C1 counterexample: a key present twice in `target` and absent from
`source` appears twice in the full-replace result, not "exactly once" as
the claim states. -/
theorem C1_counterexample :
    scd_type1_full_replace ⟨["id", "v"], []⟩
        ⟨["id", "v"], [[some (.intV 1), some (.strV "x")],
                       [some (.intV 1), some (.strV "y")]]⟩ ["id"] =
      .ok ⟨["id", "v"], [[some (.intV 1), some (.strV "x")],
                         [some (.intV 1), some (.strV "y")]]⟩ ∧
    keyCount ⟨["id", "v"], []⟩ ["id"] [some (.intV 1)] = 0 ∧
    keyCount ⟨["id", "v"], [[some (.intV 1), some (.strV "x")],
                            [some (.intV 1), some (.strV "y")]]⟩
      ["id"] [some (.intV 1)] = 2 := by
  refine ⟨?_, by decide, by decide⟩
  rfl

/-- Witness for C1 at the demo data: key 2 occurs once in source and once
in target; key 1 only in target. -/
theorem C1_full_replace_counts_witness :
    ∃ rel, scd_type1_full_replace
        ⟨["id", "name"], [[some (.intV 2), some (.strV "Bobby")]]⟩
        ⟨["id", "name"], [[some (.intV 1), some (.strV "Alice")],
                          [some (.intV 2), some (.strV "Bob")]]⟩ ["id"] = .ok rel ∧
      keyCount rel ["id"] [some (.intV 2)] =
        keyCount ⟨["id", "name"], [[some (.intV 2), some (.strV "Bobby")]]⟩
          ["id"] [some (.intV 2)] +
        (if keyCount ⟨["id", "name"], [[some (.intV 2), some (.strV "Bobby")]]⟩
            ["id"] [some (.intV 2)] = 0 then
          keyCount ⟨["id", "name"], [[some (.intV 1), some (.strV "Alice")],
                                     [some (.intV 2), some (.strV "Bob")]]⟩
            ["id"] [some (.intV 2)]
        else 0) :=
  C1_full_replace_counts _ _ _ _ (by decide) (by decide) (by decide)

/-- C8: with a shared duplicate-free schema and well-formed rows, an empty
source leaves the target unchanged and an empty target returns the source. -/
theorem C8_empty_identities (source target : Relation) (key_cols : List String)
    (hcols : source.cols = target.cols) (hnd : source.cols.Nodup)
    (hkeys : ∀ k ∈ key_cols, k ∈ source.cols) :
    (source.rows = [] → (∀ r ∈ target.rows, r.length = target.cols.length) →
      scd_type1_full_replace source target key_cols = .ok target) ∧
    (target.rows = [] → (∀ r ∈ source.rows, r.length = source.cols.length) →
      scd_type1_full_replace source target key_cols = .ok source) := by
  have hkeyst : ∀ k ∈ key_cols, k ∈ target.cols := fun k hk => hcols ▸ hkeys k hk
  have hndt : target.cols.Nodup := hcols ▸ hnd
  have hres : unionByNameCols source.cols target.cols = source.cols := by
    rw [unionByNameCols]
    have hnilf : target.cols.filter (fun c => decide (c ∉ source.cols)) = [] := by
      rw [List.filter_eq_nil_iff]
      intro c hc
      have hcs : c ∈ source.cols := by rw [hcols]; exact hc
      simp [hcs]
    rw [hnilf, List.append_nil]
  constructor
  · intro hsrc hwf
    rw [full_replace_ok source target key_cols hkeys hkeyst]
    have hcore : fullReplaceCore source target key_cols = target := by
      unfold fullReplaceCore frUnchanged frSrcKeys
      rw [hsrc, hres]
      simp only [List.map_nil, List.dedup_nil, List.any_nil, Bool.not_false,
        List.nil_append, List.filter_true]
      have hrows : target.rows.map (fun r => reshapeRow target.cols r source.cols) =
          target.rows := by
        have hpt : ∀ r ∈ target.rows, reshapeRow target.cols r source.cols = r := by
          intro r hr
          rw [hcols]
          exact reshapeRow_self target.cols r hndt (hwf r hr)
        rw [List.map_congr_left hpt, List.map_id']
      rw [hrows, hcols]
    rw [hcore]
  · intro htgt hwf
    rw [full_replace_ok source target key_cols hkeys hkeyst]
    have hcore : fullReplaceCore source target key_cols = source := by
      unfold fullReplaceCore frUnchanged
      rw [htgt, hres]
      simp only [List.filter_nil, List.map_nil, List.append_nil]
      have hrows : source.rows.map (fun r => reshapeRow source.cols r source.cols) =
          source.rows := by
        have hpt : ∀ r ∈ source.rows, reshapeRow source.cols r source.cols = r :=
          fun r hr => reshapeRow_self source.cols r hnd (hwf r hr)
        rw [List.map_congr_left hpt, List.map_id']
      rw [hrows]
    rw [hcore]

/-- Witness for C8 at concrete one-row relations. -/
theorem C8_empty_identities_witness :
    scd_type1_full_replace ⟨["id", "v"], []⟩
        ⟨["id", "v"], [[some (.intV 1), some (.strV "x")]]⟩ ["id"] =
      .ok ⟨["id", "v"], [[some (.intV 1), some (.strV "x")]]⟩ ∧
    scd_type1_full_replace ⟨["id", "v"], [[some (.intV 1), some (.strV "x")]]⟩
        ⟨["id", "v"], []⟩ ["id"] =
      .ok ⟨["id", "v"], [[some (.intV 1), some (.strV "x")]]⟩ := by
  constructor
  · exact (C8_empty_identities ⟨["id", "v"], []⟩
      ⟨["id", "v"], [[some (.intV 1), some (.strV "x")]]⟩ ["id"]
      rfl (by decide) (by decide)).1 rfl (by decide)
  · exact (C8_empty_identities ⟨["id", "v"], [[some (.intV 1), some (.strV "x")]]⟩
      ⟨["id", "v"], []⟩ ["id"]
      rfl (by decide) (by decide)).2 rfl (by decide)

theorem Relation.ext' (a b : Relation) (h1 : a.cols = b.cols) (h2 : a.rows = b.rows) :
    a = b := by
  cases a; cases b; cases h1; cases h2; rfl

theorem unionByNameCols_idem (c1 c2 : List String) :
    unionByNameCols c1 (unionByNameCols c1 c2) = unionByNameCols c1 c2 := by
  simp only [unionByNameCols, List.filter_append]
  congr 1
  have h1 : c1.filter (fun c => decide (c ∉ c1)) = [] := by
    rw [List.filter_eq_nil_iff]
    intro c hc
    simp [hc]
  have h2 : (c2.filter (fun c => decide (c ∉ c1))).filter (fun c => decide (c ∉ c1)) =
      c2.filter (fun c => decide (c ∉ c1)) := by
    rw [List.filter_eq_self]
    intro a ha
    exact (List.mem_filter.mp ha).2
  rw [h1, h2, List.nil_append]

theorem fullReplaceCore_idem (source target : Relation) (key_cols : List String)
    (hks : ∀ k ∈ key_cols, k ∈ source.cols)
    (hnn : ∀ r ∈ source.rows, allSome (keyTuple source.cols key_cols r) = true) :
    fullReplaceCore source (fullReplaceCore source target key_cols) key_cols =
      fullReplaceCore source target key_cols := by
  have hkresU : ∀ k ∈ key_cols, k ∈ unionByNameCols source.cols target.cols :=
    fun k hk => List.mem_append_left _ (hks k hk)
  have hfr : frUnchanged source (fullReplaceCore source target key_cols) key_cols =
      (frUnchanged source target key_cols).map
        (fun r => reshapeRow target.cols r (unionByNameCols source.cols target.cols)) := by
    show ((source.rows.map
          (fun r => reshapeRow source.cols r (unionByNameCols source.cols target.cols))
        ++ (frUnchanged source target key_cols).map
          (fun r => reshapeRow target.cols r (unionByNameCols source.cols target.cols))).filter
        (fun r => !(frSrcKeys source key_cols).any
          (fun x => tupleMatch
            (keyTuple (unionByNameCols source.cols target.cols) key_cols r) x)))
      = (frUnchanged source target key_cols).map
          (fun r => reshapeRow target.cols r (unionByNameCols source.cols target.cols))
    rw [List.filter_append]
    have hS : (source.rows.map
        (fun r => reshapeRow source.cols r (unionByNameCols source.cols target.cols))).filter
        (fun r => !(frSrcKeys source key_cols).any
          (fun x => tupleMatch
            (keyTuple (unionByNameCols source.cols target.cols) key_cols r) x)) = [] := by
      rw [List.filter_eq_nil_iff]
      intro r' hr'
      rcases List.mem_map.mp hr' with ⟨sr, hsr, rfl⟩
      have hany : (frSrcKeys source key_cols).any
          (fun x => tupleMatch (keyTuple source.cols key_cols sr) x) = true := by
        rw [List.any_eq_true]
        exact ⟨keyTuple source.cols key_cols sr,
          List.mem_dedup.mpr (List.mem_map_of_mem _ hsr),
          tupleMatch_self _ (hnn sr hsr)⟩
      simp [keyTuple_reshape source.cols _ key_cols sr hkresU, hany]
    have hT : ((frUnchanged source target key_cols).map
        (fun r => reshapeRow target.cols r (unionByNameCols source.cols target.cols))).filter
        (fun r => !(frSrcKeys source key_cols).any
          (fun x => tupleMatch
            (keyTuple (unionByNameCols source.cols target.cols) key_cols r) x)) =
        (frUnchanged source target key_cols).map
          (fun r => reshapeRow target.cols r (unionByNameCols source.cols target.cols)) := by
      rw [List.filter_eq_self]
      intro r' hr'
      rcases List.mem_map.mp hr' with ⟨t, ht, rfl⟩
      have hanti := (List.mem_filter.mp ht).2
      rw [keyTuple_reshape target.cols _ key_cols t hkresU]
      exact hanti
    rw [hS, hT, List.nil_append]
  apply Relation.ext'
  · exact unionByNameCols_idem source.cols target.cols
  · show source.rows.map (fun r => reshapeRow source.cols r
        (unionByNameCols source.cols (unionByNameCols source.cols target.cols)))
      ++ (frUnchanged source (fullReplaceCore source target key_cols) key_cols).map
        (fun r => reshapeRow (unionByNameCols source.cols target.cols) r
          (unionByNameCols source.cols (unionByNameCols source.cols target.cols)))
      = source.rows.map
          (fun r => reshapeRow source.cols r (unionByNameCols source.cols target.cols))
      ++ (frUnchanged source target key_cols).map
          (fun r => reshapeRow target.cols r (unionByNameCols source.cols target.cols))
    rw [unionByNameCols_idem source.cols target.cols, hfr]
    congr 1
    rw [List.map_map]
    apply List.map_congr_left
    intro t ht
    show reshapeRow (unionByNameCols source.cols target.cols)
        (reshapeRow target.cols t (unionByNameCols source.cols target.cols))
        (unionByNameCols source.cols target.cols) =
      reshapeRow target.cols t (unionByNameCols source.cols target.cols)
    unfold reshapeRow
    apply List.map_congr_left
    intro c hc
    exact getCell_map _ _ c hc

/-- C7 (amended): full-replace re-applied to its own output as new target
is idempotent provided every source row's key tuple is fully non-null (a
null source key defeats the anti-join and duplicates that row). -/
theorem C7_full_replace_idempotent (source target : Relation) (key_cols : List String)
    (hks : ∀ k ∈ key_cols, k ∈ source.cols) (hkt : ∀ k ∈ key_cols, k ∈ target.cols)
    (hnn : ∀ r ∈ source.rows, allSome (keyTuple source.cols key_cols r) = true) :
    ∃ rel, scd_type1_full_replace source target key_cols = .ok rel ∧
      scd_type1_full_replace source rel key_cols = .ok rel := by
  refine ⟨fullReplaceCore source target key_cols,
    full_replace_ok source target key_cols hks hkt, ?_⟩
  have hktR : ∀ k ∈ key_cols, k ∈ (fullReplaceCore source target key_cols).cols :=
    fun k hk => List.mem_append_left _ (hks k hk)
  rw [full_replace_ok source _ key_cols hks hktR,
    fullReplaceCore_idem source target key_cols hks hnn]

/-- C7 counterexample: with a null source key, re-applying full-replace to
its own output duplicates the row, so the two results are not equal as row
multisets. -/
theorem C7_counterexample :
    scd_type1_full_replace ⟨["id", "v"], [[none, some (.intV 1)]]⟩
        ⟨["id", "v"], []⟩ ["id"] =
      .ok ⟨["id", "v"], [[none, some (.intV 1)]]⟩ ∧
    scd_type1_full_replace ⟨["id", "v"], [[none, some (.intV 1)]]⟩
        ⟨["id", "v"], [[none, some (.intV 1)]]⟩ ["id"] =
      .ok ⟨["id", "v"], [[none, some (.intV 1)], [none, some (.intV 1)]]⟩ ∧
    ¬ List.Perm [[(none : Cell), some (.intV 1)], [none, some (.intV 1)]]
        [[(none : Cell), some (.intV 1)]] :=
  ⟨rfl, rfl, by decide⟩

/-- Witness for C7 at one-row relations with non-null keys. -/
theorem C7_full_replace_idempotent_witness :
    ∃ rel, scd_type1_full_replace ⟨["id", "v"], [[some (.intV 1), some (.strV "a")]]⟩
        ⟨["id", "v"], [[some (.intV 2), some (.strV "b")]]⟩ ["id"] = .ok rel ∧
      scd_type1_full_replace ⟨["id", "v"], [[some (.intV 1), some (.strV "a")]]⟩
        rel ["id"] = .ok rel :=
  C7_full_replace_idempotent _ _ _ (by decide) (by decide) (by decide)

/-! ### Column-level merge: cardinality (C4) -/

theorem keyCount_columnLevelCore (source target : Relation)
    (key_cols data_cols : List String) (k0 : String) (prefer : Bool)
    (hd : ∀ x ∈ data_cols, x ∉ key_cols)
    (hnnt : ∀ tr ∈ target.rows, allSome (keyTuple target.cols key_cols tr) = true)
    (hnns : ∀ sr ∈ source.rows, allSome (keyTuple source.cols key_cols sr) = true)
    (hndt : (target.rows.map (keyTuple target.cols key_cols)).Nodup)
    (hnds : (source.rows.map (keyTuple source.cols key_cols)).Nodup)
    (kt : List Cell) :
    keyCount (columnLevelCore source target key_cols data_cols k0 prefer) key_cols kt =
      if kt ∈ target.rows.map (keyTuple target.cols key_cols)
          ∨ kt ∈ source.rows.map (keyTuple source.cols key_cols) then 1 else 0 := by
  unfold keyCount columnLevelCore
  rw [List.countP_map]
  have hcongr : ∀ p ∈ fullOuterJoin target source key_cols,
      ((fun r => decide (keyTuple (key_cols ++ data_cols) key_cols r = kt)) ∘
        clOutRow source.cols target.cols key_cols data_cols k0 prefer) p =
      decide (outKeyTuple source.cols target.cols key_cols p = kt) := by
    intro p hp
    simp only [Function.comp]
    rw [keyTuple_clOutRow source.cols target.cols key_cols data_cols k0 prefer p hd]
  rw [countP_congr' _ _ _ hcongr]
  exact countP_fullOuterJoin target source key_cols hnnt hnns hndt hnds kt

/-- C4 (amended): when the two inputs share all non-key columns, key tuples
are fully non-null, and key combinations are unique within each input, the
column-level merge yields exactly one row per key combination present in
either input (and none for other combinations); the row's key values are
the shared key values via `coalesce(s.k, t.k)`. -/
theorem C4_column_level_cardinality (source target : Relation) (key_cols : List String)
    (uc : Option (List String)) (prefer : Bool) (hne : key_cols ≠ [])
    (hkt : ∀ k ∈ key_cols, k ∈ target.cols) (hks : ∀ k ∈ key_cols, k ∈ source.cols)
    (hshare : ∀ c, (c ∈ target.cols ∨ c ∈ source.cols) → c ∉ key_cols →
      c ∈ source.cols ∧ c ∈ target.cols)
    (hnnt : ∀ tr ∈ target.rows, allSome (keyTuple target.cols key_cols tr) = true)
    (hnns : ∀ sr ∈ source.rows, allSome (keyTuple source.cols key_cols sr) = true)
    (hndt : (target.rows.map (keyTuple target.cols key_cols)).Nodup)
    (hnds : (source.rows.map (keyTuple source.cols key_cols)).Nodup) :
    ∃ rel, scd_type1_column_level source target key_cols uc prefer = .ok rel ∧
      ∀ kt, keyCount rel key_cols kt =
        if kt ∈ target.rows.map (keyTuple target.cols key_cols)
            ∨ kt ∈ source.rows.map (keyTuple source.cols key_cols) then 1 else 0 := by
  have h3 : ∀ c ∈ clDataCols source target key_cols uc, c ∈ source.cols := by
    intro c hc
    obtain ⟨ho, hnk⟩ := mem_clDataCols hc
    exact (hshare c ho hnk).1
  have h4 : ∀ c ∈ clDataCols source target key_cols uc, c ∈ target.cols := by
    intro c hc
    obtain ⟨ho, hnk⟩ := mem_clDataCols hc
    exact (hshare c ho hnk).2
  have hd : ∀ x ∈ clDataCols source target key_cols uc, x ∉ key_cols :=
    fun x hx => (mem_clDataCols hx).2
  cases prefer with
  | false =>
    refine ⟨_, column_level_ok_default source target key_cols uc hkt hks h3 h4, ?_⟩
    intro kt
    exact keyCount_columnLevelCore source target key_cols _ "" false hd hnnt hnns hndt hnds kt
  | true =>
    cases key_cols with
    | nil => exact absurd rfl hne
    | cons k0 krest =>
      refine ⟨_, column_level_ok_prefer source target k0 krest uc hkt hks h3 h4, ?_⟩
      intro kt
      exact keyCount_columnLevelCore source target (k0 :: krest) _ k0 true hd
        hnnt hnns hndt hnds kt

/-- C4 counterexample: with a null key on both sides (keys unique within
each input), one distinct key combination is present in the inputs but the
output carries two rows for it, because a null key never joins. -/
theorem C4_counterexample :
    scd_type1_column_level ⟨["id", "v"], [[none, some (.strV "s")]]⟩
        ⟨["id", "v"], [[none, some (.strV "t")]]⟩ ["id"] none false =
      .ok ⟨["id", "v"], [[none, some (.strV "t")], [none, some (.strV "s")]]⟩ ∧
    keyCount ⟨["id", "v"], [[none, some (.strV "t")], [none, some (.strV "s")]]⟩
      ["id"] [none] = 2 ∧
    ((([[none, some (.strV "t")]] : List (List Cell)).map
        (fun r => keyTuple ["id", "v"] ["id"] r)
      ++ ([[none, some (.strV "s")]] : List (List Cell)).map
        (fun r => keyTuple ["id", "v"] ["id"] r)).dedup).length = 1 := by
  refine ⟨rfl, by decide, by decide⟩

/-- Witness for C4 at the demo-style data: keys 1 and 2 in target, 2 and 4
in source; each present key combination appears exactly once, an absent
one never. -/
theorem C4_column_level_cardinality_witness :
    ∃ rel, scd_type1_column_level
        ⟨["id", "name"], [[some (.intV 2), some (.strV "Bobby")],
                          [some (.intV 4), some (.strV "Diana")]]⟩
        ⟨["id", "name"], [[some (.intV 1), some (.strV "Alice")],
                          [some (.intV 2), some (.strV "Bob")]]⟩ ["id"] none false = .ok rel ∧
      ∀ kt, keyCount rel ["id"] kt =
        if kt ∈ (⟨["id", "name"], [[some (.intV 1), some (.strV "Alice")],
                    [some (.intV 2), some (.strV "Bob")]]⟩ : Relation).rows.map
              (keyTuple (⟨["id", "name"], [[some (.intV 1), some (.strV "Alice")],
                    [some (.intV 2), some (.strV "Bob")]]⟩ : Relation).cols ["id"])
            ∨ kt ∈ (⟨["id", "name"], [[some (.intV 2), some (.strV "Bobby")],
                    [some (.intV 4), some (.strV "Diana")]]⟩ : Relation).rows.map
              (keyTuple (⟨["id", "name"], [[some (.intV 2), some (.strV "Bobby")],
                    [some (.intV 4), some (.strV "Diana")]]⟩ : Relation).cols ["id"])
        then 1 else 0 :=
  C4_column_level_cardinality _ _ _ none false (by decide) (by decide) (by decide)
    (fun c hc _ => by rcases hc with h | h <;> exact ⟨h, h⟩)
    (by decide) (by decide) (by decide) (by decide)

/-! ### Column-level merge: the two null policies (C2, C3) -/

/-- C2: under the default policy, the output value of a data column at a
joined key is the source value when that is non-null (a missing source row
reads as null) and otherwise the target value. -/
theorem C2_column_level_default_policy (source target : Relation) (key_cols : List String)
    (kt : List Cell) (c : String)
    (hkt : ∀ k ∈ key_cols, k ∈ target.cols) (hks : ∀ k ∈ key_cols, k ∈ source.cols)
    (hshare : ∀ x, (x ∈ target.cols ∨ x ∈ source.cols) → x ∉ key_cols →
      x ∈ source.cols ∧ x ∈ target.cols)
    (hnnt : ∀ tr ∈ target.rows, allSome (keyTuple target.cols key_cols tr) = true)
    (hnns : ∀ sr ∈ source.rows, allSome (keyTuple source.cols key_cols sr) = true)
    (hndt : (target.rows.map (keyTuple target.cols key_cols)).Nodup)
    (hnds : (source.rows.map (keyTuple source.cols key_cols)).Nodup)
    (hktmem : kt ∈ target.rows.map (keyTuple target.cols key_cols) ∨
              kt ∈ source.rows.map (keyTuple source.cols key_cols))
    (hcmem : c ∈ target.cols ∨ c ∈ source.cols) (hck : c ∉ key_cols) :
    ∃ rel, scd_type1_column_level source target key_cols none false = .ok rel ∧
      keyCount rel key_cols kt = 1 ∧
      ∀ row ∈ rel.rows, keyTuple rel.cols key_cols row = kt →
        getCell rel.cols row c =
          (match (source.rows.find? (fun r =>
              decide (keyTuple source.cols key_cols r = kt))).bind
              (fun sr => getCell source.cols sr c) with
           | some v => some v
           | none => (target.rows.find? (fun r =>
              decide (keyTuple target.cols key_cols r = kt))).bind
              (fun tr => getCell target.cols tr c)) := by
  have h3 : ∀ x ∈ clDataCols source target key_cols none, x ∈ source.cols := by
    intro x hx
    obtain ⟨ho, hnk⟩ := mem_clDataCols hx
    exact (hshare x ho hnk).1
  have h4 : ∀ x ∈ clDataCols source target key_cols none, x ∈ target.cols := by
    intro x hx
    obtain ⟨ho, hnk⟩ := mem_clDataCols hx
    exact (hshare x ho hnk).2
  have hd : ∀ x ∈ clDataCols source target key_cols none, x ∉ key_cols :=
    fun x hx => (mem_clDataCols hx).2
  refine ⟨_, column_level_ok_default source target key_cols none hkt hks h3 h4, ?_, ?_⟩
  · rw [keyCount_columnLevelCore source target key_cols _ "" false hd hnnt hnns hndt hnds kt,
        if_pos hktmem]
  · simp only [columnLevelCore]
    intro row hrow hkey
    rcases List.mem_map.mp hrow with ⟨p, hp, rfl⟩
    rw [keyTuple_clOutRow source.cols target.cols key_cols _ "" false p hd] at hkey
    have hchar := mem_fullOuterJoin_char target source key_cols hnnt hnns hndt hnds p hp kt hkey
    have hcd : c ∈ clDataCols source target key_cols none := mem_clDataCols_none hcmem hck
    rw [getCell_clOutRow source.cols target.cols key_cols _ "" false p c hd
        (List.mem_append_right _ hcd), if_neg hck, hchar]
    rcases hfS : source.rows.find? (fun r => decide (keyTuple source.cols key_cols r = kt))
      with _ | sr
    · rcases hfT : target.rows.find? (fun r => decide (keyTuple target.cols key_cols r = kt))
        with _ | tr
      · simp [clDataCell, sideCell]
      · simp [clDataCell, sideCell]
    · rcases hgc : getCell source.cols sr c with _ | v
      · rcases hfT : target.rows.find? (fun r => decide (keyTuple target.cols key_cols r = kt))
          with _ | tr
        · simp [clDataCell, sideCell, hgc]
        · simp [clDataCell, sideCell, hgc]
      · simp [clDataCell, sideCell, hgc]

/-- The spec's worked example, source side: `{id:1, name:"Bobby", state:null}`. -/
def exSrc : Relation :=
  ⟨["id", "name", "state"], [[some (.intV 1), some (.strV "Bobby"), none]]⟩

/-- The spec's worked example, target side: `{id:1, name:"Bob", state:"CA"}`. -/
def exTgt : Relation :=
  ⟨["id", "name", "state"], [[some (.intV 1), some (.strV "Bob"), some (.strV "CA")]]⟩

/-- Witness for C2 at the spec's example: `state` is preserved from the
target, `name` is overwritten from the source, and the full output row is
`{id:1, name:"Bobby", state:"CA"}`. -/
theorem C2_column_level_default_policy_witness :
    (∃ rel, scd_type1_column_level exSrc exTgt ["id"] none false = .ok rel ∧
      keyCount rel ["id"] [some (.intV 1)] = 1 ∧
      ∀ row ∈ rel.rows, keyTuple rel.cols ["id"] row = [some (.intV 1)] →
        getCell rel.cols row "state" =
          (match (exSrc.rows.find? (fun r =>
              decide (keyTuple exSrc.cols ["id"] r = [some (.intV 1)]))).bind
              (fun sr => getCell exSrc.cols sr "state") with
           | some v => some v
           | none => (exTgt.rows.find? (fun r =>
              decide (keyTuple exTgt.cols ["id"] r = [some (.intV 1)]))).bind
              (fun tr => getCell exTgt.cols tr "state"))) ∧
    (∃ rel, scd_type1_column_level exSrc exTgt ["id"] none false = .ok rel ∧
      keyCount rel ["id"] [some (.intV 1)] = 1 ∧
      ∀ row ∈ rel.rows, keyTuple rel.cols ["id"] row = [some (.intV 1)] →
        getCell rel.cols row "name" =
          (match (exSrc.rows.find? (fun r =>
              decide (keyTuple exSrc.cols ["id"] r = [some (.intV 1)]))).bind
              (fun sr => getCell exSrc.cols sr "name") with
           | some v => some v
           | none => (exTgt.rows.find? (fun r =>
              decide (keyTuple exTgt.cols ["id"] r = [some (.intV 1)]))).bind
              (fun tr => getCell exTgt.cols tr "name"))) ∧
    scd_type1_column_level exSrc exTgt ["id"] none false =
      .ok ⟨["id", "name", "state"],
        [[some (.intV 1), some (.strV "Bobby"), some (.strV "CA")]]⟩ :=
  ⟨C2_column_level_default_policy exSrc exTgt ["id"] [some (.intV 1)] "state"
      (by decide) (by decide) (fun x hx _ => by rcases hx with h | h <;> exact ⟨h, h⟩)
      (by decide) (by decide) (by decide) (by decide) (by decide) (by decide) (by decide),
   C2_column_level_default_policy exSrc exTgt ["id"] [some (.intV 1)] "name"
      (by decide) (by decide) (fun x hx _ => by rcases hx with h | h <;> exact ⟨h, h⟩)
      (by decide) (by decide) (by decide) (by decide) (by decide) (by decide) (by decide),
   rfl⟩

/-- C3: under the null-override policy, presence of a matching source row
(detected through the first key column of the source side, which is
non-null exactly when a source row joined) makes the source value win even
when null; otherwise the target value is kept. -/
theorem C3_column_level_null_override (source target : Relation) (k0 : String)
    (krest : List String) (kt : List Cell) (c : String)
    (hkt : ∀ k ∈ k0 :: krest, k ∈ target.cols) (hks : ∀ k ∈ k0 :: krest, k ∈ source.cols)
    (hshare : ∀ x, (x ∈ target.cols ∨ x ∈ source.cols) → x ∉ (k0 :: krest) →
      x ∈ source.cols ∧ x ∈ target.cols)
    (hnnt : ∀ tr ∈ target.rows, allSome (keyTuple target.cols (k0 :: krest) tr) = true)
    (hnns : ∀ sr ∈ source.rows, allSome (keyTuple source.cols (k0 :: krest) sr) = true)
    (hndt : (target.rows.map (keyTuple target.cols (k0 :: krest))).Nodup)
    (hnds : (source.rows.map (keyTuple source.cols (k0 :: krest))).Nodup)
    (hktmem : kt ∈ target.rows.map (keyTuple target.cols (k0 :: krest)) ∨
              kt ∈ source.rows.map (keyTuple source.cols (k0 :: krest)))
    (hcmem : c ∈ target.cols ∨ c ∈ source.cols) (hck : c ∉ (k0 :: krest)) :
    ∃ rel, scd_type1_column_level source target (k0 :: krest) none true = .ok rel ∧
      keyCount rel (k0 :: krest) kt = 1 ∧
      ∀ row ∈ rel.rows, keyTuple rel.cols (k0 :: krest) row = kt →
        getCell rel.cols row c =
          (match source.rows.find? (fun r =>
              decide (keyTuple source.cols (k0 :: krest) r = kt)) with
           | some sr => getCell source.cols sr c
           | none => (target.rows.find? (fun r =>
              decide (keyTuple target.cols (k0 :: krest) r = kt))).bind
              (fun tr => getCell target.cols tr c)) := by
  have h3 : ∀ x ∈ clDataCols source target (k0 :: krest) none, x ∈ source.cols := by
    intro x hx
    obtain ⟨ho, hnk⟩ := mem_clDataCols hx
    exact (hshare x ho hnk).1
  have h4 : ∀ x ∈ clDataCols source target (k0 :: krest) none, x ∈ target.cols := by
    intro x hx
    obtain ⟨ho, hnk⟩ := mem_clDataCols hx
    exact (hshare x ho hnk).2
  have hd : ∀ x ∈ clDataCols source target (k0 :: krest) none, x ∉ (k0 :: krest) :=
    fun x hx => (mem_clDataCols hx).2
  refine ⟨_, column_level_ok_prefer source target k0 krest none hkt hks h3 h4, ?_, ?_⟩
  · rw [keyCount_columnLevelCore source target (k0 :: krest) _ k0 true hd
        hnnt hnns hndt hnds kt, if_pos hktmem]
  · simp only [columnLevelCore]
    intro row hrow hkey
    rcases List.mem_map.mp hrow with ⟨p, hp, rfl⟩
    rw [keyTuple_clOutRow source.cols target.cols (k0 :: krest) _ k0 true p hd] at hkey
    have hchar := mem_fullOuterJoin_char target source (k0 :: krest)
      hnnt hnns hndt hnds p hp kt hkey
    have hcd : c ∈ clDataCols source target (k0 :: krest) none :=
      mem_clDataCols_none hcmem hck
    rw [getCell_clOutRow source.cols target.cols (k0 :: krest) _ k0 true p c hd
        (List.mem_append_right _ hcd), if_neg hck, hchar]
    rcases hfS : source.rows.find?
        (fun r => decide (keyTuple source.cols (k0 :: krest) r = kt)) with _ | sr
    · rcases hfT : target.rows.find?
          (fun r => decide (keyTuple target.cols (k0 :: krest) r = kt)) with _ | tr
      · simp [clDataCell, sideCell]
      · simp [clDataCell, sideCell]
    · have hsrm : sr ∈ source.rows := List.mem_of_find?_eq_some hfS
      have hk0 : (getCell source.cols sr k0).isSome = true :=
        allSome_mem (hnns sr hsrm)
          (List.mem_map_of_mem _ (List.mem_cons_self k0 krest))
      obtain ⟨v, hv⟩ := Option.isSome_iff_exists.mp hk0
      simp [clDataCell, sideCell, hv]

/-- Witness for C3 at the spec's example: the output row is
`{id:1, name:"Bobby", state:null}` — the source null overwrites `"CA"`. -/
theorem C3_column_level_null_override_witness :
    (∃ rel, scd_type1_column_level exSrc exTgt ["id"] none true = .ok rel ∧
      keyCount rel ["id"] [some (.intV 1)] = 1 ∧
      ∀ row ∈ rel.rows, keyTuple rel.cols ["id"] row = [some (.intV 1)] →
        getCell rel.cols row "state" =
          (match exSrc.rows.find? (fun r =>
              decide (keyTuple exSrc.cols ["id"] r = [some (.intV 1)])) with
           | some sr => getCell exSrc.cols sr "state"
           | none => (exTgt.rows.find? (fun r =>
              decide (keyTuple exTgt.cols ["id"] r = [some (.intV 1)]))).bind
              (fun tr => getCell exTgt.cols tr "state"))) ∧
    scd_type1_column_level exSrc exTgt ["id"] none true =
      .ok ⟨["id", "name", "state"],
        [[some (.intV 1), some (.strV "Bobby"), none]]⟩ :=
  ⟨C3_column_level_null_override exSrc exTgt "id" [] [some (.intV 1)] "state"
      (by decide) (by decide) (fun x hx _ => by rcases hx with h | h <;> exact ⟨h, h⟩)
      (by decide) (by decide) (by decide) (by decide) (by decide) (by decide) (by decide),
   rfl⟩

/-! ### Restricted update_cols (C5) -/

theorem filter_eq_singleton_of_nodup (l : List String) (a : String)
    (hnd : l.Nodup) (ha : a ∈ l) :
    l.filter (fun c => decide (c = a)) = [a] := by
  induction l with
  | nil => cases ha
  | cons b bs ih =>
    rw [List.nodup_cons] at hnd
    rcases List.mem_cons.mp ha with rfl | ha'
    · rw [List.filter_cons, if_pos (by simp)]
      have hnil : bs.filter (fun c => decide (c = a)) = [] := by
        rw [List.filter_eq_nil_iff]
        intro c hc
        simp only [decide_eq_true_eq]
        intro hcb
        exact hnd.1 (hcb ▸ hc)
      rw [hnil]
    · have hba : ¬(b = a) := fun h => hnd.1 (h ▸ ha')
      rw [List.filter_cons, if_neg (by simp [hba]), ih hnd.2 ha']

theorem filter_mem_singleton (l : List String) (a : String)
    (hnd : l.Nodup) (ha : a ∈ l) :
    l.filter (fun c => [a].contains c) = [a] := by
  have hpred : ∀ c ∈ l, ([a].contains c) = decide (c = a) := by
    intro c _
    by_cases h : c = a <;> simp [h, List.contains]
  rw [List.filter_congr hpred]
  exact filter_eq_singleton_of_nodup l a hnd ha

/-- C5 (amended): with `update_cols = ["name"]` and key `id`, the merge
succeeds on any inputs carrying `id` and `name`, and its output schema is
exactly `[id, name]` — the `state` column is not part of the output at all,
so no state value (in particular no difference in state) can reach it. -/
theorem C5_update_cols_excludes_state (source target : Relation)
    (hidt : "id" ∈ target.cols) (hids : "id" ∈ source.cols)
    (hnt : "name" ∈ target.cols) (hns : "name" ∈ source.cols) :
    ∃ rel, scd_type1_column_level source target ["id"] (some ["name"]) false = .ok rel ∧
      rel.cols = ["id", "name"] ∧ "state" ∉ rel.cols := by
  have hdc : clDataCols source target ["id"] (some ["name"]) = ["name"] := by
    show (if (["name"] : List String).isEmpty then clBaseCols source target ["id"]
        else (clBaseCols source target ["id"]).filter
          (fun c => ["name"].contains c)) = ["name"]
    rw [if_neg (by decide : ¬((["name"] : List String).isEmpty = true))]
    have hmem : "name" ∈ clBaseCols source target ["id"] := by
      rw [clBaseCols, mem_sortStrings]
      exact List.mem_filter.mpr
        ⟨List.mem_dedup.mpr (List.mem_append.mpr (Or.inl hnt)), by decide⟩
    have hcb : (clBaseCols source target ["id"]).Nodup := by
      rw [clBaseCols]
      exact nodup_sortStrings (List.Nodup.filter _ (List.nodup_dedup _))
    exact filter_mem_singleton _ _ hcb hmem
  have h1 : ∀ k ∈ (["id"] : List String), k ∈ target.cols := by
    intro k hk
    rw [List.mem_singleton] at hk
    subst hk
    exact hidt
  have h2 : ∀ k ∈ (["id"] : List String), k ∈ source.cols := by
    intro k hk
    rw [List.mem_singleton] at hk
    subst hk
    exact hids
  have h3 : ∀ c ∈ clDataCols source target ["id"] (some ["name"]), c ∈ source.cols := by
    rw [hdc]
    intro c hc
    rw [List.mem_singleton] at hc
    subst hc
    exact hns
  have h4 : ∀ c ∈ clDataCols source target ["id"] (some ["name"]), c ∈ target.cols := by
    rw [hdc]
    intro c hc
    rw [List.mem_singleton] at hc
    subst hc
    exact hnt
  refine ⟨_, column_level_ok_default source target ["id"] (some ["name"]) h1 h2 h3 h4, ?_, ?_⟩
  · show (["id"] ++ clDataCols source target ["id"] (some ["name"])) = ["id", "name"]
    rw [hdc]
    rfl
  · show "state" ∉ (["id"] ++ clDataCols source target ["id"] (some ["name"]))
    rw [hdc]
    decide

/-- C5 counterexample: with `update_cols=["name"]` the output has no
`state` column at all, so "output state always equals target.state" is
false — the target's state is `"CA"` but the output yields nothing (null)
for `state`. -/
theorem C5_counterexample :
    scd_type1_column_level
        ⟨["id", "name", "state"],
          [[some (.intV 1), some (.strV "Bobby"), some (.strV "TX")]]⟩
        ⟨["id", "name", "state"],
          [[some (.intV 1), some (.strV "Bob"), some (.strV "CA")]]⟩
        ["id"] (some ["name"]) false =
      .ok ⟨["id", "name"], [[some (.intV 1), some (.strV "Bobby")]]⟩ ∧
    "state" ∉ (["id", "name"] : List String) ∧
    getCell ["id", "name"] [some (.intV 1), some (.strV "Bobby")] "state" = none ∧
    getCell ["id", "name", "state"]
      [some (.intV 1), some (.strV "Bob"), some (.strV "CA")] "state" =
      some (.strV "CA") ∧
    (none : Cell) ≠ some (.strV "CA") := by
  refine ⟨rfl, by decide, by decide, by decide, by decide⟩

/-- Witness for C5 at the counterexample's relations. -/
theorem C5_update_cols_excludes_state_witness :
    ∃ rel, scd_type1_column_level
        ⟨["id", "name", "state"],
          [[some (.intV 1), some (.strV "Bobby"), some (.strV "TX")]]⟩
        ⟨["id", "name", "state"],
          [[some (.intV 1), some (.strV "Bob"), some (.strV "CA")]]⟩
        ["id"] (some ["name"]) false = .ok rel ∧
      rel.cols = ["id", "name"] ∧ "state" ∉ rel.cols :=
  C5_update_cols_excludes_state _ _ (by decide) (by decide) (by decide) (by decide)

/-! ### Audit columns: heap behaviour of `add_audit_columns` (C9, C10) -/

theorem concat_getD_length {α : Type} (l : List α) (x d : α) :
    (l ++ [x]).getD l.length d = x := by
  induction l with
  | nil => rfl
  | cons a as ih => simp only [List.cons_append, List.length_cons, List.getD_cons_succ]; exact ih

theorem concat_set_length {α : Type} (l : List α) (x y : α) :
    (l ++ [x]).set l.length y = l ++ [y] := by
  induction l with
  | nil => rfl
  | cons a as ih => simp only [List.cons_append, List.length_cons, List.set_cons_succ]; rw [ih]

/-- What one call of `add_audit_columns` does to the heap, when the three
audit column names are fresh for the input frame: a new frame is appended
holding the old columns plus `ingest_ts`, `source_file` and `record_hash`,
each row extended with the timestamp, the file name, and the row hash
computed over the already-extended row. -/
theorem add_audit_columns_spec (h : List PandasDF) (r : Nat) (source_file ts : String)
    (hf1 : "ingest_ts" ∉ (h.getD r ⟨[], []⟩).cols)
    (hf2 : "source_file" ∉ (h.getD r ⟨[], []⟩).cols)
    (hf3 : "record_hash" ∉ (h.getD r ⟨[], []⟩).cols) :
    add_audit_columns h r source_file ts =
      (h ++ [⟨(h.getD r ⟨[], []⟩).cols ++ ["ingest_ts", "source_file", "record_hash"],
        (h.getD r ⟨[], []⟩).rows.map (fun row =>
          row ++ [.strV ts, .strV source_file,
            rowHashVal (row ++ [.strV ts, .strV source_file])])⟩],
       h.length) := by
  have hm2 : "source_file" ∉ (h.getD r ⟨[], []⟩).cols ++ ["ingest_ts"] := by
    rw [List.mem_append]
    rintro (hc | hc)
    · exact hf2 hc
    · simp at hc
  have hm3 : "record_hash" ∉ ((h.getD r ⟨[], []⟩).cols ++ ["ingest_ts"]) ++ ["source_file"] := by
    rw [List.mem_append, List.mem_append]
    rintro ((hc | hc) | hc)
    · exact hf3 hc
    · simp at hc
    · simp at hc
  have e1 : (h.getD r ⟨[], []⟩).setConst "ingest_ts" (.strV ts) =
      ⟨(h.getD r ⟨[], []⟩).cols ++ ["ingest_ts"],
       (h.getD r ⟨[], []⟩).rows.map (fun row => row ++ [.strV ts])⟩ := by
    rw [PandasDF.setConst, if_neg hf1]
  have e2 : (⟨(h.getD r ⟨[], []⟩).cols ++ ["ingest_ts"],
       (h.getD r ⟨[], []⟩).rows.map (fun row => row ++ [.strV ts])⟩ : PandasDF).setConst
        "source_file" (.strV source_file) =
      ⟨((h.getD r ⟨[], []⟩).cols ++ ["ingest_ts"]) ++ ["source_file"],
       ((h.getD r ⟨[], []⟩).rows.map (fun row => row ++ [.strV ts])).map
         (fun row => row ++ [.strV source_file])⟩ := by
    rw [PandasDF.setConst, if_neg hm2]
  have e3 : (⟨((h.getD r ⟨[], []⟩).cols ++ ["ingest_ts"]) ++ ["source_file"],
       ((h.getD r ⟨[], []⟩).rows.map (fun row => row ++ [.strV ts])).map
         (fun row => row ++ [.strV source_file])⟩ : PandasDF).setApply
        "record_hash" rowHashVal =
      ⟨(((h.getD r ⟨[], []⟩).cols ++ ["ingest_ts"]) ++ ["source_file"]) ++ ["record_hash"],
       (((h.getD r ⟨[], []⟩).rows.map (fun row => row ++ [.strV ts])).map
         (fun row => row ++ [.strV source_file])).map
         (fun row => row ++ [rowHashVal row])⟩ := by
    rw [PandasDF.setApply, if_neg hm3]
  simp only [add_audit_columns, concat_getD_length, concat_set_length, e1, e2, e3]
  refine congrArg (fun x => (h ++ [x], h.length)) ?_
  congr 1
  · simp [List.append_assoc]
  · rw [List.map_map, List.map_map]
    apply List.map_congr_left
    intro row hrow
    simp [Function.comp, List.append_assoc]

/-- C9: `add_audit_columns` never mutates its input frame — after the call
the caller's frame is unchanged on the heap, and the returned reference is
a fresh frame holding the original columns plus the three audit columns. -/
theorem C9_add_audit_columns_no_mutation (h : List PandasDF) (r : Nat)
    (source_file ts : String) (hr : r < h.length)
    (hf1 : "ingest_ts" ∉ (h.getD r ⟨[], []⟩).cols)
    (hf2 : "source_file" ∉ (h.getD r ⟨[], []⟩).cols)
    (hf3 : "record_hash" ∉ (h.getD r ⟨[], []⟩).cols) :
    (add_audit_columns h r source_file ts).1.get? r = h.get? r ∧
    (add_audit_columns h r source_file ts).2 ≠ r ∧
    (add_audit_columns h r source_file ts).1.getD
        (add_audit_columns h r source_file ts).2 ⟨[], []⟩ =
      ⟨(h.getD r ⟨[], []⟩).cols ++ ["ingest_ts", "source_file", "record_hash"],
       (h.getD r ⟨[], []⟩).rows.map (fun row =>
         row ++ [.strV ts, .strV source_file,
           rowHashVal (row ++ [.strV ts, .strV source_file])])⟩ := by
  rw [add_audit_columns_spec h r source_file ts hf1 hf2 hf3]
  refine ⟨List.get?_append hr, fun hc => absurd hc.symm (Nat.ne_of_lt hr), ?_⟩
  exact concat_getD_length h _ _

/-- Witness for C9 at a one-frame heap. -/
theorem C9_add_audit_columns_no_mutation_witness :
    (add_audit_columns [⟨["x"], [[.strV "v"]]⟩] 0 "f.csv" "T").1.get? 0 =
      ([⟨["x"], [[.strV "v"]]⟩] : List PandasDF).get? 0 ∧
    (add_audit_columns [⟨["x"], [[.strV "v"]]⟩] 0 "f.csv" "T").2 ≠ 0 ∧
    (add_audit_columns [⟨["x"], [[.strV "v"]]⟩] 0 "f.csv" "T").1.getD
        (add_audit_columns [⟨["x"], [[.strV "v"]]⟩] 0 "f.csv" "T").2 ⟨[], []⟩ =
      ⟨(([⟨["x"], [[.strV "v"]]⟩] : List PandasDF).getD 0 ⟨[], []⟩).cols ++
          ["ingest_ts", "source_file", "record_hash"],
       (([⟨["x"], [[.strV "v"]]⟩] : List PandasDF).getD 0 ⟨[], []⟩).rows.map (fun row =>
         row ++ [.strV "T", .strV "f.csv",
           rowHashVal (row ++ [.strV "T", .strV "f.csv"])])⟩ :=
  C9_add_audit_columns_no_mutation [⟨["x"], [[.strV "v"]]⟩] 0 "f.csv" "T"
    (by decide) (by decide) (by decide) (by decide)

/-- C10 (amended): each `record_hash` cell equals the SHA-256 hex digest of
the `'|'`-joined string representations of the row's values including the
just-added `ingest_ts` and `source_file`; rows whose stringified value
lists agree receive equal hashes.  (Equality of hashes for rows with
different values is possible: the join is ambiguous — see the
counterexample — so distinctness is not guaranteed.) -/
theorem C10_record_hash_content (h : List PandasDF) (r : Nat) (source_file ts : String)
    (hf1 : "ingest_ts" ∉ (h.getD r ⟨[], []⟩).cols)
    (hf2 : "source_file" ∉ (h.getD r ⟨[], []⟩).cols)
    (hf3 : "record_hash" ∉ (h.getD r ⟨[], []⟩).cols) :
    ((add_audit_columns h r source_file ts).1.getD
        (add_audit_columns h r source_file ts).2 ⟨[], []⟩).rows =
      (h.getD r ⟨[], []⟩).rows.map (fun row =>
        row ++ [.strV ts, .strV source_file,
          .strV (sha256hex (strToBytes
            (joinPipe ((row.map strOf) ++ [ts, source_file]))))]) ∧
    (∀ r1 r2 : List Val, r1.map strOf = r2.map strOf → rowHashVal r1 = rowHashVal r2) := by
  constructor
  · rw [add_audit_columns_spec h r source_file ts hf1 hf2 hf3]
    show (((h ++ [_]).getD h.length ⟨[], []⟩).rows) = _
    rw [concat_getD_length]
    apply List.map_congr_left
    intro row hrow
    simp [rowHashVal, List.map_append, strOf]
  · intro r1 r2 hmap
    unfold rowHashVal
    rw [hmap]

/-- C10 counterexample: two ingestion runs over the same data row with
different timestamps and different source-file names produce the same
`record_hash`, because the `'|'`-join of the stringified values is
ambiguous (`"a|b" ++ "|" ++ "c"` equals `"a" ++ "|" ++ "b|c"`). -/
theorem C10_counterexample :
    (((add_audit_columns [⟨["x"], [[.strV "v"]]⟩] 0 "c" "a|b").1.getD 1 ⟨[], []⟩).rows.getD
        0 []).getD 3 (.intV 0) =
    (((add_audit_columns [⟨["x"], [[.strV "v"]]⟩] 0 "b|c" "a").1.getD 1 ⟨[], []⟩).rows.getD
        0 []).getD 3 (.intV 0) ∧
    ("a|b" : String) ≠ "a" ∧ ("c" : String) ≠ "b|c" := by
  refine ⟨?_, by decide, by decide⟩
  show rowHashVal [.strV "v", .strV "a|b", .strV "c"] =
    rowHashVal [.strV "v", .strV "a", .strV "b|c"]
  unfold rowHashVal
  have hjoin : joinPipe ([Val.strV "v", .strV "a|b", .strV "c"].map strOf) =
      joinPipe ([Val.strV "v", .strV "a", .strV "b|c"].map strOf) := by decide
  rw [hjoin]

/-- Witness for C10: the hash column of a one-row frame, and equal hashes
for the rows `[1]` and `["1"]`, whose values stringify identically. -/
theorem C10_record_hash_content_witness :
    ((add_audit_columns [⟨["x"], [[.strV "v"]]⟩] 0 "f.csv" "T").1.getD
        (add_audit_columns [⟨["x"], [[.strV "v"]]⟩] 0 "f.csv" "T").2 ⟨[], []⟩).rows =
      (([⟨["x"], [[.strV "v"]]⟩] : List PandasDF).getD 0 ⟨[], []⟩).rows.map (fun row =>
        row ++ [.strV "T", .strV "f.csv",
          .strV (sha256hex (strToBytes
            (joinPipe ((row.map strOf) ++ ["T", "f.csv"]))))]) ∧
    rowHashVal [Val.intV 1] = rowHashVal [Val.strV "1"] :=
  ⟨(C10_record_hash_content [⟨["x"], [[.strV "v"]]⟩] 0 "f.csv" "T"
      (by decide) (by decide) (by decide)).1,
   (C10_record_hash_content [⟨["x"], [[.strV "v"]]⟩] 0 "f.csv" "T"
      (by decide) (by decide) (by decide)).2 [Val.intV 1] [Val.strV "1"] (by decide)⟩
